import Mathlib

/-!
Verification development for the `multi-site-scraper` comparison scripts
(`compareScript.py` and `compareScriptFuzzy.py`).

Strings are modelled as `List Char`.  Python's `str.lower` / `str.strip` /
regular expressions are modelled over the character repertoire the scripts
actually touch (ASCII letters, digits, punctuation, the en-dash), matching
CPython semantics on that repertoire.  JSON values are modelled by an
inductive type `JVal`; Python attribute errors (calling `.lower()` on a
non-string, `.items()` on a non-dict) are modelled with the `Except`
monad, so "an exception propagates out of per-row processing" is
`Except.error`.
-/

namespace Scraper

/-- `String.data` shorthand: the `List Char` of a literal. -/
def lstr (s : String) : List Char := s.data

/-- Python's whitespace class (`\s`, and the default `str.strip` set),
restricted to ASCII. -/
def pySpace (c : Char) : Bool :=
  c == ' ' || c == '\t' || c == '\n' || c == '\x0b' || c == '\x0c' || c == '\r'

/-- The 26 upper/lower pairs of the ASCII alphabet. -/
def upperLower : List (Char × Char) :=
  [('A', 'a'), ('B', 'b'), ('C', 'c'), ('D', 'd'), ('E', 'e'), ('F', 'f'),
   ('G', 'g'), ('H', 'h'), ('I', 'i'), ('J', 'j'), ('K', 'k'), ('L', 'l'),
   ('M', 'm'), ('N', 'n'), ('O', 'o'), ('P', 'p'), ('Q', 'q'), ('R', 'r'),
   ('S', 's'), ('T', 't'), ('U', 'u'), ('V', 'v'), ('W', 'w'), ('X', 'x'),
   ('Y', 'y'), ('Z', 'z')]

/-- Python `str.lower`, per character (ASCII model). -/
def pyLower (c : Char) : Char :=
  match upperLower.find? (fun p => p.1 == c) with
  | some p => p.2
  | none => c

/-- Python `str.upper`, per character (ASCII model); used by `str.title`. -/
def pyUpper (c : Char) : Char :=
  match upperLower.find? (fun p => p.2 == c) with
  | some p => p.1
  | none => c

/-- Python `str.strip()` (both ends, default whitespace). -/
def pyStrip (l : List Char) : List Char :=
  ((l.dropWhile pySpace).reverse.dropWhile pySpace).reverse

/-- `v.replace("–", "-")`: the en-dash replacement is per-character. -/
def dashFix (c : Char) : Char := if c == '–' then '-' else c

/-- `re.sub(r"\s+", " ", v)`: collapse every whitespace run to a single
space.  The flag records whether the previous character was whitespace. -/
def collapseAux : Bool → List Char → List Char
  | _, [] => []
  | b, c :: rest =>
    if pySpace c then
      if b then collapseAux true rest else ' ' :: collapseAux true rest
    else c :: collapseAux false rest

/-- `v.replace(" watt", "w")`: Python `str.replace` scans left to right,
non-overlapping, skipping past each replacement. -/
def replSpaceWatt : List Char → List Char
  | ' ' :: 'w' :: 'a' :: 't' :: 't' :: rest => 'w' :: replSpaceWatt rest
  | c :: rest => c :: replSpaceWatt rest
  | [] => []

/-- `v.replace(" w", "w")`. -/
def replSpaceW : List Char → List Char
  | ' ' :: 'w' :: rest => 'w' :: replSpaceW rest
  | c :: rest => c :: replSpaceW rest
  | [] => []

/-- `v.replace(" lm", "lm")`. -/
def replSpaceLm : List Char → List Char
  | ' ' :: 'l' :: 'm' :: rest => 'l' :: 'm' :: replSpaceLm rest
  | c :: rest => c :: replSpaceLm rest
  | [] => []

/-- `v.replace(" k", "k")`. -/
def replSpaceK : List Char → List Char
  | ' ' :: 'k' :: rest => 'k' :: replSpaceK rest
  | c :: rest => c :: replSpaceK rest
  | [] => []

/-- `normalize_value` (identical in `compareScript.py` lines 22-33 and
`compareScriptFuzzy.py` lines 27-38): lowercase, strip, en-dash to
hyphen, collapse whitespace runs, then the unit-spelling replacements
`" watt"→"w"`, `" w"→"w"`, `" lm"→"lm"`, `" k"→"k"` in that order. -/
def normalize_value (v : List Char) : List Char :=
  replSpaceK (replSpaceLm (replSpaceW (replSpaceWatt
    (collapseAux false ((pyStrip (v.map pyLower)).map dashFix)))))

/-- `normalize` (general normalization for manual text): an alias. -/
def normalize (text : List Char) : List Char := normalize_value text

/-- Characters that survive one `normalize_value` pass unchanged:
lowercase-fixed, not an en-dash, and whitespace only as a plain space. -/
def okChar (c : Char) : Bool :=
  (pyLower c == c) && (c != '–') && (!pySpace c || c == ' ')

/-- Does the list start with a space? -/
def headSpace : List Char → Bool
  | c :: _ => c == ' '
  | [] => false

/-- No two adjacent spaces. -/
def noDbl : List Char → Bool
  | c :: d :: rest => !(c == ' ' && d == ' ') && noDbl (d :: rest)
  | _ => true

/-- The list does not start with whitespace. -/
def noLeadWS : List Char → Bool
  | c :: _ => !pySpace c
  | [] => true

/-- The list does not end with whitespace. -/
def noTrailWS : List Char → Bool
  | [] => true
  | [c] => !pySpace c
  | _ :: rest => noTrailWS rest

/-- Parsed JSON values (the result of `json.loads`). -/
inductive JVal where
  | null : JVal
  | bool : Bool → JVal
  | num : Int → JVal
  | str : List Char → JVal
  | arr : List JVal → JVal
  | obj : List (List Char × JVal) → JVal

/-- Python `dict.get(key, default)` on a JSON object. -/
def jget (kvs : List (List Char × JVal)) (key : List Char) (default : JVal) : JVal :=
  match kvs.find? (fun kv => kv.1 == key) with
  | some kv => kv.2
  | none => default

/-- Python truthiness of a JSON value (`bool(v)`). -/
def jTruthy : JVal → Bool
  | .null => false
  | .bool b => b
  | .num n => n != 0
  | .str s => !s.isEmpty
  | .arr l => !l.isEmpty
  | .obj kvs => !kvs.isEmpty

/-- `extract_specification` (both scripts):
`payload_json.get("verified", {}).get("specification", {}) or {}`, with
every exception caught and turned into `{}`.  The `.get` calls raise
(`AttributeError`) when the receiver is not a dict — caught; the
`or {}` replaces a falsy result by `{}`.  A *truthy* non-dict value at
`verified.specification` is returned unchanged. -/
def extract_specification (payload : JVal) : JVal :=
  match payload with
  | .obj kvs =>
    match jget kvs (lstr "verified") (.obj []) with
    | .obj vkvs =>
      let spec := jget vkvs (lstr "specification") (.obj [])
      if jTruthy spec then spec else .obj []
    | _ => .obj []
  | _ => .obj []

/-- `spec.items()`: raises (`AttributeError`) unless `spec` is a dict. -/
def specItems : JVal → Except Unit (List (List Char × JVal))
  | .obj kvs => .ok kvs
  | _ => .error ()

/-- `normalize_value(val)` applied to an arbitrary JSON value, as Python
executes it: `(v or "")` turns a falsy value into `""`; calling
`.lower()` on a truthy non-string raises (`AttributeError`),
modelled as `Except.error`. -/
def normalizeJ (v : JVal) : Except Unit (List Char) :=
  match v with
  | .str s => .ok (normalize_value s)
  | v => if jTruthy v then .error () else .ok []

/-- The string a JSON value contributes to `f"{key}: {val}"`.  In the
scripts this is only ever reached for string values (non-string values
are falsy whenever they get past the `if not val_norm` skip is
impossible: a truthy non-string already raised in `normalize_value`),
so the other branches are dead. -/
def jvalRawStr : JVal → List Char
  | .str s => s
  | _ => []

/-- `re.search(re.escape(pat), s)` viewed as a Boolean: literal
substring test. -/
def containsSub (pat : List Char) : List Char → Bool
  | [] => pat.isPrefixOf ([] : List Char)
  | s@(_ :: rest) => pat.isPrefixOf s || containsSub pat rest

/-- ASCII digit test (`\d`). -/
def isDigit (c : Char) : Bool := '0' ≤ c && c ≤ '9'

/-- One attempted match of `\d+(\.\d+)?\s*(w|k|lm)` at the head of `l`
(group 1 = the whole token).  Greedy submatches never need to backtrack
here: shortening `\d+`, `(\.\d+)?` or `\s*` always leaves a character
the next subpattern rejects. -/
def matchNumUnit (l : List Char) : Option (List Char) :=
  let ds := l.takeWhile isDigit
  if ds.isEmpty then none else
  let r1 := l.drop ds.length
  let dec :=
    match r1 with
    | '.' :: t => let ds2 := t.takeWhile isDigit
                  if ds2.isEmpty then [] else '.' :: ds2
    | _ => []
  let r2 := r1.drop dec.length
  let sp := r2.takeWhile pySpace
  let r3 := r2.drop sp.length
  match r3 with
  | 'w' :: _ => some (ds ++ dec ++ sp ++ ['w'])
  | 'k' :: _ => some (ds ++ dec ++ sp ++ ['k'])
  | 'l' :: 'm' :: _ => some (ds ++ dec ++ sp ++ ['l', 'm'])
  | _ => none

/-- `re.findall(num_unit_pattern, s)` (first components of the tuples):
scan left to right; on a match emit the token and continue after it,
otherwise advance one character.  Fuel = remaining length. -/
def findNumUnitsAux : Nat → List Char → List (List Char)
  | 0, _ => []
  | _, [] => []
  | fuel + 1, l@(_ :: rest) =>
    match matchNumUnit l with
    | some tok => tok :: findNumUnitsAux fuel (l.drop tok.length)
    | none => findNumUnitsAux fuel rest

/-- `re.findall(r"(\d+(\.\d+)?\s*(w|k|lm))", s)`, keeping group 1. -/
def findNumUnits (l : List Char) : List (List Char) := findNumUnitsAux l.length l

/-- `w[0].replace(" ", "")`: drop the internal spaces of a token. -/
def stripSpaces (l : List Char) : List Char := l.filter (fun c => c != ' ')

/-- Inner loop of the numeric-unit conflict test: the first manual token
whose space-stripped form differs from `wc`. -/
def firstDiffAux (wc : List Char) : List (List Char) → Option (List Char)
  | [] => none
  | m :: ms =>
    let mc := stripSpaces m
    if mc ≠ wc then some mc else firstDiffAux wc ms

/-- The nested loops of `compare_attribute` lines 72-78 / 77-83: for each
workflow token in order, for each manual token in order, return the
first space-stripped manual token that differs from the space-stripped
workflow token.  (`if workflow_nums and manual_nums` only guards a loop
that is vacuous on empty lists, so it needs no separate model.) -/
def firstDiff : List (List Char) → List (List Char) → Option (List Char)
  | [], _ => none
  | w :: ws, ms =>
    match firstDiffAux (stripSpaces w) ms with
    | some mc => some mc
    | none => firstDiff ws ms

/-- Longest-common-subsequence length, row-based dynamic programming.
`lcsNext c a diag left old` computes the tail of the next DP row. -/
def lcsNext (c : Char) : List Char → Nat → Nat → List Nat → List Nat
  | [], _, _, _ => []
  | x :: xs, diag, left, old =>
    let up := old.headD 0
    let v := if x == c then diag + 1 else max left up
    v :: lcsNext c xs up v old.tail

/-- LCS length of two character lists. -/
def lcsLen (a b : List Char) : Nat :=
  (b.foldl (fun row c => 0 :: lcsNext c a (row.headD 0) 0 row.tail)
    (List.replicate (a.length + 1) 0)).getLastD 0

/-- Modelled from the spec: `rapidfuzz.fuzz.ratio`, the normalized Indel
similarity `100 * (1 - dist / (|a| + |b|))` with
`dist = |a| + |b| - 2 * lcs`, i.e. `200 * lcs / (|a| + |b|)`;
`100` for two empty strings.  (The `rapidfuzz` library is an external
dependency, not part of this repository's sources.) -/
def indelScore (a b : List Char) : ℚ :=
  if a.length + b.length = 0 then 100
  else mkRat (Int.ofNat (200 * lcsLen a b)) (a.length + b.length)

/-- The alignment windows `partial_ratio` scores: every length-`n`
window of `l` plus the shorter windows overlapping either boundary. -/
def windowsOf (n : Nat) (l : List Char) : List (List Char) :=
  ((List.range (n - 1)).map (fun k => l.take (k + 1)) ++
    (List.range (l.length + 1 - n)).map (fun i => (l.drop i).take n)) ++
    (List.range (n - 1)).map (fun k => l.drop (l.length + 1 - n + k))

/-- Modelled from the spec: `rapidfuzz.fuzz.partial_ratio`, "a 0-100
similarity measure tolerant of one string being a substring-like
fragment of the other": the best `ratio` over all alignments of the
shorter string against windows of the longer one. -/
def fuzzScore (a b : List Char) : ℚ :=
  let p := if a.length ≤ b.length then (a, b) else (b, a)
  if p.1.length = 0 then 100
  else ((windowsOf p.1.length p.2).map (indelScore p.1)).foldl
    (fun x y => if x ≤ y then y else x) 0

/-- `compare_attribute` (identical in `compareScript.py` lines 53-84 and
`compareScriptFuzzy.py` lines 58-89): substring test, then
numeric-unit conflict test, then fuzzy fallback at threshold 85.
Returns `(is_match, mismatch_value)`. -/
def compare_attribute (workflow_val manual_text : List Char) :
    Bool × Option (List Char) :=
  let wn := normalize_value workflow_val
  let mn := normalize_value manual_text
  if !wn.isEmpty && containsSub wn mn then (true, none)
  else
    match firstDiff (findNumUnits wn) (findNumUnits mn) with
    | some mc => (false, some mc)
    | none =>
      if 85 ≤ fuzzScore wn mn then (true, none) else (false, none)

/-- Regex word character (`\w`), ASCII model. -/
def wordChar (c : Char) : Bool :=
  ('a' ≤ c && c ≤ 'z') || ('A' ≤ c && c ≤ 'Z') || isDigit c || c == '_'

/-- A word boundary (`\b`) sits after the end of a word at `rest`. -/
def boundaryAfter : List Char → Bool
  | [] => true
  | c :: _ => !wordChar c

/-- `re.search`: scan left to right, return the first match.  `tryAt`
attempts a match at the current position; its Boolean argument says
whether the previous character was a word character (for `\b`). -/
def reSearch (tryAt : Bool → List Char → Option (List Char)) :
    Bool → List Char → Option (List Char)
  | prevW, [] => tryAt prevW []
  | prevW, c :: rest =>
    match tryAt prevW (c :: rest) with
    | some m => some m
    | none => reSearch tryAt (wordChar c) rest

/-- `re.findall`: all non-overlapping matches, scanning left to right and
continuing after each match.  Fuel = remaining length (every match here
consumes at least one character). -/
def reFindAllAux (tryAt : Bool → List Char → Option (List Char)) :
    Nat → Bool → List Char → List (List Char)
  | 0, _, _ => []
  | _, _, [] => []
  | fuel + 1, prevW, l@(c :: rest) =>
    match tryAt prevW l with
    | some m => m :: reFindAllAux tryAt fuel (wordChar (m.getLastD c)) (l.drop m.length)
    | none => reFindAllAux tryAt fuel (wordChar c) rest

/-- `re.findall` entry point (start of string is a non-word position). -/
def reFindAll (tryAt : Bool → List Char → Option (List Char)) (l : List Char) :
    List (List Char) :=
  reFindAllAux tryAt l.length false l

/-- `(\.\d+)?`: the optional decimal part at the head of `l` (consumed
only when a digit follows the dot, as in the regex). -/
def optDecimal (l : List Char) : List Char :=
  match l with
  | '.' :: t => let d := t.takeWhile isDigit
                if d.isEmpty then [] else '.' :: d
  | _ => []

/-- `\d+(?:\.\d+)?w\b` at one position (`compareScriptFuzzy.py` line 107). -/
def tryNumW (_ : Bool) (l : List Char) : Option (List Char) :=
  let ds := l.takeWhile isDigit
  if ds.isEmpty then none else
  let r1 := l.drop ds.length
  let dec := optDecimal r1
  match r1.drop dec.length with
  | 'w' :: rest => if boundaryAfter rest then some (ds ++ dec ++ ['w']) else none
  | _ => none

/-- `\d+lm\b` at one position (`compareScriptFuzzy.py` line 108). -/
def tryNumLm (_ : Bool) (l : List Char) : Option (List Char) :=
  let ds := l.takeWhile isDigit
  if ds.isEmpty then none else
  match l.drop ds.length with
  | 'l' :: 'm' :: rest => if boundaryAfter rest then some (ds ++ ['l', 'm']) else none
  | _ => none

/-- `\d{3,4}k\b` at one position (`compareScriptFuzzy.py` line 109):
greedy `{3,4}` tries four digits, then three.  (When four digits are
available the three-digit attempt is always followed by a digit, never
`k`, so only one of the two attempts can fire.) -/
def tryNumK (_ : Bool) (l : List Char) : Option (List Char) :=
  let ds := l.takeWhile isDigit
  if 4 ≤ ds.length then
    match l.drop 4 with
    | 'k' :: rest => if boundaryAfter rest then some (ds.take 4 ++ ['k']) else none
    | _ => none
  else if ds.length = 3 then
    match l.drop 3 with
    | 'k' :: rest => if boundaryAfter rest then some (ds ++ ['k']) else none
    | _ => none
  else none

/-- Tail of the hours pattern after the comma groups: `\s*hours?\b`. -/
def hoursTail (l : List Char) : Option (List Char) :=
  let sp := l.takeWhile pySpace
  match l.drop sp.length with
  | 'h' :: 'o' :: 'u' :: 'r' :: 's' :: rest =>
    if boundaryAfter rest then some (sp ++ lstr "hours") else none
  | 'h' :: 'o' :: 'u' :: 'r' :: rest =>
    if boundaryAfter rest then some (sp ++ lstr "hour") else none
  | _ => none

/-- `(?:,\d{3})*\s*hours?\b`: the starred comma groups are consumed
greedily, giving repetitions back one at a time (regex backtracking)
until the tail matches. -/
def hoursStar : List Char → Option (List Char)
  | ',' :: d1 :: d2 :: d3 :: rest =>
    if isDigit d1 && isDigit d2 && isDigit d3 then
      match hoursStar rest with
      | some t => some (',' :: d1 :: d2 :: d3 :: t)
      | none => hoursTail (',' :: d1 :: d2 :: d3 :: rest)
    else hoursTail (',' :: d1 :: d2 :: d3 :: rest)
  | l => hoursTail l

/-- `\d+(?:,\d{3})*\s*hours?\b` at one position (`compareScriptFuzzy.py`
line 110). -/
def tryHours (_ : Bool) (l : List Char) : Option (List Char) :=
  let ds := l.takeWhile isDigit
  if ds.isEmpty then none else
  (hoursStar (l.drop ds.length)).map (fun t => ds ++ t)

/-- `\d+\s*years?\b` at one position (`compareScriptFuzzy.py` line 111). -/
def tryYears (_ : Bool) (l : List Char) : Option (List Char) :=
  let ds := l.takeWhile isDigit
  if ds.isEmpty then none else
  let r1 := l.drop ds.length
  let sp := r1.takeWhile pySpace
  match r1.drop sp.length with
  | 'y' :: 'e' :: 'a' :: 'r' :: 's' :: rest =>
    if boundaryAfter rest then some (ds ++ sp ++ lstr "years") else none
  | 'y' :: 'e' :: 'a' :: 'r' :: rest =>
    if boundaryAfter rest then some (ds ++ sp ++ lstr "year") else none
  | _ => none

/-- `\d+(?:\.\d+)?\s*U\b` for a literal unit `U` (`compareScriptFuzzy.py`
lines 112-115: `v`, `mm`, `g`, `mhz`). -/
def tryNumSpUnit (unit : List Char) (_ : Bool) (l : List Char) : Option (List Char) :=
  let ds := l.takeWhile isDigit
  if ds.isEmpty then none else
  let r1 := l.drop ds.length
  let dec := optDecimal r1
  let r2 := r1.drop dec.length
  let sp := r2.takeWhile pySpace
  let r3 := r2.drop sp.length
  if unit.isPrefixOf r3 && boundaryAfter (r3.drop unit.length) then
    some (ds ++ dec ++ sp ++ unit)
  else none

/-- `\b(alt1|alt2|...)\b` at one position: alternatives tried in order,
each must be followed by a word boundary; every alternative starts with
a word character, so the leading `\b` is just "previous char not a word
character". -/
def tryAlts (alts : List (List Char)) (prevW : Bool) (l : List Char) : Option (List Char) :=
  if prevW then none else
  alts.findSome? (fun alt =>
    if alt.isPrefixOf l && boundaryAfter (l.drop alt.length) then some alt else none)

/-- Cap fittings of the value-set scanner (`compareScriptFuzzy.py` line 123). -/
def capAltsCF : List (List Char) :=
  [lstr "b22", lstr "e27", lstr "e14", lstr "gu10", lstr "g9", lstr "integrated"]

/-- Colour words of the value-set scanner (`compareScriptFuzzy.py` line 127). -/
def colorAltsCF : List (List Char) :=
  [lstr "warm white", lstr "cool white", lstr "daylight", lstr "rgb",
   lstr "blue", lstr "red", lstr "green"]

/-- `re.search(r"\bdimmable\b", manual)` as a Boolean. -/
def hasDimmable (manual : List Char) : Bool :=
  (reSearch (tryAlts [lstr "dimmable"]) false manual).isSome

/-- `extract_manual_values` (`compareScriptFuzzy.py` lines 94-134): all
pattern hits over the normalized manual text, collected into a set.
The Python `set` is modelled as the duplicate-free list of values in
first-appearance order (the script only takes membership, difference
and `sorted(...)` of it, all order-insensitive). -/
def extract_manual_values (manual_text : List Char) : List (List Char) :=
  let manual := normalize_value manual_text
  let numeric :=
    reFindAll tryNumW manual ++ reFindAll tryNumLm manual ++
    reFindAll tryNumK manual ++ reFindAll tryHours manual ++
    reFindAll tryYears manual ++ reFindAll (tryNumSpUnit (lstr "v")) manual ++
    reFindAll (tryNumSpUnit (lstr "mm")) manual ++
    reFindAll (tryNumSpUnit (lstr "g")) manual ++
    reFindAll (tryNumSpUnit (lstr "mhz")) manual
  let caps := reFindAll (tryAlts capAltsCF) manual
  let colors := reFindAll (tryAlts colorAltsCF) manual
  let dim := if hasDimmable manual then [lstr "dimmable"] else []
  (numeric ++ caps ++ colors ++ dim).eraseDups

/-- ASCII letter test. -/
def isAsciiAlpha (c : Char) : Bool := ('a' ≤ c && c ≤ 'z') || ('A' ≤ c && c ≤ 'Z')

/-- The character class `[a-z0-9\s]` of the brand pattern. -/
def brandBody (c : Char) : Bool := ('a' ≤ c && c ≤ 'z') || isDigit c || pySpace c

/-- Backtracking over the greedy `[: ]+` of the brand pattern: the
separator run is given back one character at a time (reversed first
argument) until the `([a-z0-9\s]+)` body can consume at least one
character. -/
def brandGo : List Char → List Char → Option (List Char)
  | [], _ => none
  | s :: revSep, rest =>
    let body := rest.takeWhile brandBody
    if body.isEmpty then brandGo revSep (s :: rest)
    else some ((s :: revSep).reverse ++ body)

/-- `\bbrand[: ]+([a-z0-9\s]+)` at one position (`compareScript.py`
line 97); the recorded value is `group(0)`, the whole match. -/
def tryBrand (prevW : Bool) (l : List Char) : Option (List Char) :=
  if prevW then none else
  if (lstr "brand").isPrefixOf l then
    let after := l.drop 5
    let sep := after.takeWhile (fun c => c == ':' || c == ' ')
    if sep.isEmpty then none else
    (brandGo sep.reverse (after.drop sep.length)).map (fun t => lstr "brand" ++ t)
  else none

/-- `(\d+(\.\d+)?w)` at one position (`compareScript.py` line 98 — no
word boundary). -/
def tryNumWnoB (_ : Bool) (l : List Char) : Option (List Char) :=
  let ds := l.takeWhile isDigit
  if ds.isEmpty then none else
  let r1 := l.drop ds.length
  let dec := optDecimal r1
  match r1.drop dec.length with
  | 'w' :: _ => some (ds ++ dec ++ ['w'])
  | _ => none

/-- `(\d+lm)` at one position (`compareScript.py` line 99). -/
def tryNumLmNoB (_ : Bool) (l : List Char) : Option (List Char) :=
  let ds := l.takeWhile isDigit
  if ds.isEmpty then none else
  match l.drop ds.length with
  | 'l' :: 'm' :: _ => some (ds ++ ['l', 'm'])
  | _ => none

/-- `(\d{3,4}k|warm white|cool white|daylight)` at one position
(`compareScript.py` line 100 — no word boundaries). -/
def tryColourCS (_ : Bool) (l : List Char) : Option (List Char) :=
  let ds := l.takeWhile isDigit
  let numAlt :=
    if 4 ≤ ds.length then
      match l.drop 4 with
      | 'k' :: _ => some (ds.take 4 ++ ['k'])
      | _ => none
    else if ds.length = 3 then
      match l.drop 3 with
      | 'k' :: _ => some (ds ++ ['k'])
      | _ => none
    else none
  match numAlt with
  | some m => some m
  | none =>
    [lstr "warm white", lstr "cool white", lstr "daylight"].findSome?
      (fun alt => if alt.isPrefixOf l then some alt else none)

/-- `(\d+\s*year)` at one position (`compareScript.py` line 103). -/
def tryYearNoB (_ : Bool) (l : List Char) : Option (List Char) :=
  let ds := l.takeWhile isDigit
  if ds.isEmpty then none else
  let r1 := l.drop ds.length
  let sp := r1.takeWhile pySpace
  if (lstr "year").isPrefixOf (r1.drop sp.length) then some (ds ++ sp ++ lstr "year")
  else none

/-- Cap fittings of the named-attribute scanner (`compareScript.py` line 101). -/
def capAltsCS : List (List Char) := [lstr "b22", lstr "e27", lstr "e14"]

/-- `extract_manual_attributes` (`compareScript.py` lines 89-112): the
fixed pattern table in insertion order, first match (`re.search`) per
pattern, recording `(attr_name, group(0))`. -/
def extract_manual_attributes (manual_text : List Char) : List (List Char × List Char) :=
  let manual := normalize_value manual_text
  [(lstr "brand", reSearch tryBrand false manual),
   (lstr "wattage", reSearch tryNumWnoB false manual),
   (lstr "lumens", reSearch tryNumLmNoB false manual),
   (lstr "colour temperature", reSearch tryColourCS false manual),
   (lstr "cap fitting", reSearch (tryAlts capAltsCS) false manual),
   (lstr "dimmable", reSearch (tryAlts [lstr "dimmable"]) false manual),
   (lstr "guarantee", reSearch tryYearNoB false manual)].filterMap
    (fun p => p.2.map (fun v => (p.1, v)))

/-- Python `str.title()` (ASCII model): uppercase a letter after a
non-letter, lowercase a letter after a letter. -/
def pyTitleAux : Bool → List Char → List Char
  | _, [] => []
  | prevAlpha, c :: rest =>
    (if isAsciiAlpha c then (if prevAlpha then pyLower c else pyUpper c) else c) ::
      pyTitleAux (isAsciiAlpha c) rest

/-- Python `str.title()`. -/
def pyTitle (l : List Char) : List Char := pyTitleAux false l

/-- Python `sep.join(parts)`. -/
def joinList (sep : List Char) : List (List Char) → List Char
  | [] => []
  | [x] => x
  | x :: y :: xs => x ++ sep ++ joinList sep (y :: xs)

/-- Lexicographic (code-point) comparison of Python strings. -/
def lexLt : List Char → List Char → Bool
  | [], [] => false
  | [], _ :: _ => true
  | _ :: _, [] => false
  | a :: as, b :: bs => if a < b then true else if b < a then false else lexLt as bs

/-- Insert into an ascending list (for `sorted(...)`). -/
def insSorted (x : List Char) : List (List Char) → List (List Char)
  | [] => [x]
  | y :: ys => if lexLt x y then x :: y :: ys else y :: insSorted x ys

/-- Python `sorted(...)` on strings. -/
def sortLex (l : List (List Char)) : List (List Char) := l.foldr insSorted []

/-- `f"{key}: {val}"` for a matched entry. -/
def fmtMatched (k : List Char) (v : JVal) : List Char := k ++ lstr ": " ++ jvalRawStr v

/-- The mismatched-entry block. -/
def fmtMismatch (k mv vn : List Char) : List Char :=
  k ++ lstr "\n  Manual: " ++ mv ++ lstr "\n  Workflow: " ++ vn

/-- The missing-entry block for an undetected workflow attribute. -/
def fmtMissing (k vn : List Char) : List Char :=
  k ++ lstr "\n  Manual: Not detected\n  Workflow: " ++ vn

/-- The missing-entry block of the named-attribute scanner. -/
def fmtMissingScan (name v : List Char) : List Char :=
  pyTitle name ++ lstr "\n  Manual: " ++ v ++ lstr "\n  Workflow: Not found"

/-- The missing-entry block of the value-set scanner. -/
def fmtUnmatchedManual (mv : List Char) : List Char :=
  lstr "Unmatched Manual Value\n  Manual: " ++ mv ++ lstr "\n  Workflow: Not found"

/-- The sentinel returned when no section is non-empty. -/
def noSpecSentinel : List Char := lstr "✅ No specifications detected"

/-- The report assembly shared by both scripts (`compareScript.py` lines
163-173, `compareScriptFuzzy.py` lines 207-217): one labeled section
per non-empty collection, joined by blank lines; the sentinel when all
three are empty. -/
def buildReport (matched mismatched missing : List (List Char)) : List Char :=
  let parts : List (List Char) :=
    (if matched.isEmpty then [] else
      [lstr "✅ Matched:\n- " ++ joinList (lstr "\n- ") matched]) ++
    (if mismatched.isEmpty then [] else
      [lstr "⚠️ Mismatched:\n- " ++ joinList (lstr "\n- ") mismatched]) ++
    (if missing.isEmpty then [] else
      [lstr "❌ Missing:\n- " ++ joinList (lstr "\n- ") missing])
  if parts.isEmpty then noSpecSentinel else joinList (lstr "\n\n") parts

/-- Restatement of the report contract in the spec's words ("one labeled
section per non-empty collection, always in the order matched, then
mismatched, then missing"): an ordered labeled table filtered to the
non-empty collections.  `claim_C8_report_builder` identifies it with
`buildReport`. -/
def buildReportAlt (matched mismatched missing : List (List Char)) : List Char :=
  let secs := [(lstr "✅ Matched:\n- ", matched), (lstr "⚠️ Mismatched:\n- ", mismatched),
    (lstr "❌ Missing:\n- ", missing)].filterMap
    (fun p => if p.2.isEmpty then none else some (p.1 ++ joinList (lstr "\n- ") p.2))
  if secs.isEmpty then noSpecSentinel else joinList (lstr "\n\n") secs

namespace CS

/-- The workflow → manual loop of `compareScript.py` lines 127-150,
returning the three collections.  `normalize_value(val)` on a truthy
non-string raises, aborting the whole row (`Except.error`). -/
def wfPass (manual : List Char) :
    List (List Char × JVal) →
    Except Unit (List (List Char) × List (List Char) × List (List Char))
  | [] => .ok ([], [], [])
  | (k, v) :: rest => do
    let vn ← normalizeJ v
    if vn.isEmpty then wfPass manual rest
    else
      let r := compare_attribute vn manual
      let (m, mm, ms) ← wfPass manual rest
      match r with
      | (true, _) => .ok (fmtMatched k v :: m, mm, ms)
      | (false, some mv) =>
        if mv.isEmpty then .ok (m, mm, fmtMissing k vn :: ms)
        else .ok (m, fmtMismatch k mv vn :: mm, ms)
      | (false, none) => .ok (m, mm, fmtMissing k vn :: ms)

/-- The manual → workflow loop of `compareScript.py` lines 153-161: a
scanner hit is reported missing unless its name is a substring of some
lowercased workflow key. -/
def scanPass (manual_text : List Char) (spec : List (List Char × JVal)) :
    List (List Char) :=
  (extract_manual_attributes manual_text).filterMap (fun p =>
    if spec.any (fun kv => containsSub p.1 (kv.1.map pyLower)) then none
    else some (fmtMissingScan p.1 p.2))

/-- `compare` (`compareScript.py` lines 117-173). -/
def compare (manual_text : List Char) (payload : JVal) : Except Unit (List Char) := do
  let manual := normalize manual_text
  let spec ← specItems (extract_specification payload)
  let (m, mm, ms) ← wfPass manual spec
  .ok (buildReport m mm (ms ++ scanPass manual_text spec))

end CS

namespace CF

/-- `IGNORE_ATTRIBUTES` (`compareScriptFuzzy.py` lines 20-22). -/
def IGNORE_ATTRIBUTES : List (List Char) :=
  [lstr "category", lstr "image 1", lstr "image 2", lstr "image 3", lstr "image 4"]

/-- Result of the workflow → manual loop of `compareScriptFuzzy.py`,
including the set of normalized values of matched attributes
(modelled as a list; only membership and existential queries are made). -/
structure Pass1 where
  matched : List (List Char)
  mismatched : List (List Char)
  missing : List (List Char)
  matchedValues : List (List Char)

/-- The workflow → manual loop of `compareScriptFuzzy.py` lines 152-180:
as in the plain script, but entries whose case-folded and stripped key
is in `IGNORE_ATTRIBUTES` are skipped (after `normalize_value(val)`
has already run), and matched values are tracked. -/
def wfPass (manual : List Char) : List (List Char × JVal) → Except Unit Pass1
  | [] => .ok ⟨[], [], [], []⟩
  | (k, v) :: rest => do
    let vn ← normalizeJ v
    if IGNORE_ATTRIBUTES.contains (pyStrip (k.map pyLower)) then wfPass manual rest
    else if vn.isEmpty then wfPass manual rest
    else
      let r := compare_attribute vn manual
      let p ← wfPass manual rest
      match r with
      | (true, _) =>
        .ok ⟨fmtMatched k v :: p.matched, p.mismatched, p.missing, vn :: p.matchedValues⟩
      | (false, some mv) =>
        if mv.isEmpty then .ok ⟨p.matched, p.mismatched, fmtMissing k vn :: p.missing, p.matchedValues⟩
        else .ok ⟨p.matched, fmtMismatch k mv vn :: p.mismatched, p.missing, p.matchedValues⟩
      | (false, none) =>
        .ok ⟨p.matched, p.mismatched, fmtMissing k vn :: p.missing, p.matchedValues⟩

/-- The manual → workflow pass of `compareScriptFuzzy.py` lines 182-205:
manual values not in the matched-value set, sorted, each suppressed if
fuzzily similar (≥ 85) to some matched workflow value. -/
def scanPass (manual_text : List Char) (matchedValues : List (List Char)) :
    List (List Char) :=
  let manual_values := extract_manual_values manual_text
  let unmatched := manual_values.filter (fun mv => !matchedValues.contains mv)
  (sortLex unmatched).filterMap (fun mv =>
    if matchedValues.any (fun wv => 85 ≤ fuzzScore mv wv) then none
    else some (fmtUnmatchedManual mv))

/-- `compare` (`compareScriptFuzzy.py` lines 139-217). -/
def compare (manual_text : List Char) (payload : JVal) : Except Unit (List Char) := do
  let manual := normalize manual_text
  let spec ← specItems (extract_specification payload)
  let p ← wfPass manual spec
  .ok (buildReport p.matched p.mismatched (p.missing ++ scanPass manual_text p.matchedValues))

end CF

/-- One CSV row: the three columns the scripts read, the comparison
column they write, and the untouched remainder of the row. -/
structure Row where
  scrapeStatus : List Char
  payload : List Char
  manualSpec : List Char
  comparison : List Char
  others : List (List Char × List Char)

/-- The row-level marker. -/
def NotApplicable : List Char := lstr "Not Applicable"

/-- Per-row step of `process` (`compareScript.py` lines 196-211,
`compareScriptFuzzy.py` lines 240-255).  `parse` models `json.loads`
(modelled from the spec: an abstract JSON parser — `none` is a parse
failure; the standard library parser is not part of this repository). -/
def CS.processRow (parse : List Char → Option JVal) (row : Row) : Except Unit Row :=
  if (pyStrip row.scrapeStatus).map pyLower ≠ lstr "success" then
    .ok { row with comparison := NotApplicable }
  else
    match parse row.payload with
    | none => .ok { row with comparison := NotApplicable }
    | some payload => do
      let rep ← CS.compare row.manualSpec payload
      .ok { row with comparison := rep }

/-- Payload `{"verified": {"specification": {"Wattage": "10W"}}}`. -/
def pldWattage : JVal :=
  .obj [(lstr "verified", .obj [(lstr "specification",
    .obj [(lstr "Wattage", .str (lstr "10W"))])])]

/-- Per-row step of `process` in `compareScriptFuzzy.py` (identical
except for the `compare` it calls). -/
def CF.processRow (parse : List Char → Option JVal) (row : Row) : Except Unit Row :=
  if (pyStrip row.scrapeStatus).map pyLower ≠ lstr "success" then
    .ok { row with comparison := NotApplicable }
  else
    match parse row.payload with
    | none => .ok { row with comparison := NotApplicable }
    | some payload => do
      let rep ← CF.compare row.manualSpec payload
      .ok { row with comparison := rep }

/-! ### Per-entry classification (the three report sections, entry-wise)

The loop of `compare` classifies each specification entry independently
of the others.  The following per-entry functions state that
classification for an entry with a *string* value; the partition
theorems identify the loop's output with `filterMap`s of these. -/

/-- Per-entry matched-section contribution (`compareScript.py`). -/
def csMatchedFmt (manual : List Char) (kv : List Char × List Char) :
    Option (List Char) :=
  let vn := normalize_value kv.2
  if vn.isEmpty then none
  else if (compare_attribute vn manual).1 then some (fmtMatched kv.1 (.str kv.2))
  else none

/-- Per-entry mismatched-section contribution (`compareScript.py`). -/
def csMismatchFmt (manual : List Char) (kv : List Char × List Char) :
    Option (List Char) :=
  let vn := normalize_value kv.2
  if vn.isEmpty then none
  else
    match compare_attribute vn manual with
    | (true, _) => none
    | (false, some mv) => if mv.isEmpty then none else some (fmtMismatch kv.1 mv vn)
    | (false, none) => none

/-- Per-entry missing-section contribution (`compareScript.py`). -/
def csMissingFmt (manual : List Char) (kv : List Char × List Char) :
    Option (List Char) :=
  let vn := normalize_value kv.2
  if vn.isEmpty then none
  else
    match compare_attribute vn manual with
    | (true, _) => none
    | (false, some mv) => if mv.isEmpty then some (fmtMissing kv.1 vn) else none
    | (false, none) => some (fmtMissing kv.1 vn)

/-- Is the entry skipped by the fuzzy script's ignore list? -/
def cfIgnored (kv : List Char × List Char) : Bool :=
  CF.IGNORE_ATTRIBUTES.contains (pyStrip (kv.1.map pyLower))

/-- Per-entry matched-section contribution (`compareScriptFuzzy.py`). -/
def cfMatchedFmt (manual : List Char) (kv : List Char × List Char) :
    Option (List Char) :=
  if cfIgnored kv then none else csMatchedFmt manual kv

/-- Per-entry mismatched-section contribution (`compareScriptFuzzy.py`). -/
def cfMismatchFmt (manual : List Char) (kv : List Char × List Char) :
    Option (List Char) :=
  if cfIgnored kv then none else csMismatchFmt manual kv

/-- Per-entry missing-section contribution (`compareScriptFuzzy.py`). -/
def cfMissingFmt (manual : List Char) (kv : List Char × List Char) :
    Option (List Char) :=
  if cfIgnored kv then none else csMissingFmt manual kv

/-- Per-entry contribution to the suppression set `matched_values`
(`compareScriptFuzzy.py` line 167): the normalized value, only for
entries classified as matched. -/
def cfMatchedVal (manual : List Char) (kv : List Char × List Char) :
    Option (List Char) :=
  let vn := normalize_value kv.2
  if cfIgnored kv then none
  else if vn.isEmpty then none
  else if (compare_attribute vn manual).1 then some vn
  else none

/-- String-valued entries as JSON entries. -/
def strEntries (spec : List (List Char × List Char)) : List (List Char × JVal) :=
  spec.map (fun kv => (kv.1, JVal.str kv.2))

/-! ### Normal-form lemmas for `normalize_value` (idempotence machinery) -/

lemma lowVals_fixed : ∀ p ∈ upperLower, pyLower p.2 = p.2 := by decide

lemma pyLower_cases (c : Char) :
    pyLower c = c ∨ ∃ p ∈ upperLower, pyLower c = p.2 := by
  unfold pyLower
  cases hf : upperLower.find? (fun p => p.1 == c) with
  | none => exact Or.inl rfl
  | some p => exact Or.inr ⟨p, List.mem_of_find?_eq_some hf, rfl⟩

lemma pyLower_idem (c : Char) : pyLower (pyLower c) = pyLower c := by
  rcases pyLower_cases c with h | ⟨p, hp, h⟩
  · rw [h, h]
  · rw [h]; exact lowVals_fixed p hp

lemma map_id_mem {f : Char → Char} :
    ∀ l : List Char, (∀ c ∈ l, f c = c) → l.map f = l
  | [], _ => rfl
  | c :: rest, h => by
    rw [List.map_cons, h c (by simp),
      map_id_mem rest (fun d hd => h d (by simp [hd]))]

lemma noLead_append (xs ys : List Char) (h : xs ≠ []) :
    noLeadWS (xs ++ ys) = noLeadWS xs := by
  cases xs with
  | nil => exact absurd rfl h
  | cons c rest => rfl

lemma noTrail_cons (c : Char) (l : List Char) (h : l ≠ []) :
    noTrailWS (c :: l) = noTrailWS l := by
  cases l with
  | nil => exact absurd rfl h
  | cons d rest => rfl

lemma noTrail_eq (l : List Char) : noTrailWS l = noLeadWS l.reverse := by
  induction l with
  | nil => rfl
  | cons c rest ih =>
    cases rest with
    | nil => rfl
    | cons d r2 =>
      rw [noTrail_cons c (d :: r2) (by simp), ih]
      conv_rhs => rw [List.reverse_cons]
      rw [noLead_append _ _ (by simp)]

lemma noDbl_cons (c : Char) (l : List Char) :
    noDbl (c :: l) = (!(c == ' ' && headSpace l) && noDbl l) := by
  cases l with
  | nil => simp [noDbl, headSpace]
  | cons d rest => rfl

lemma noDbl_tail (c : Char) (l : List Char) (h : noDbl (c :: l) = true) :
    noDbl l = true := by
  rw [noDbl_cons] at h
  exact (Bool.and_eq_true_iff.mp h).2

/-! strip -/

lemma dropWhile_noLead (l : List Char) : noLeadWS (l.dropWhile pySpace) = true := by
  induction l with
  | nil => rfl
  | cons c rest ih =>
    rw [List.dropWhile_cons]
    by_cases h : pySpace c = true
    · simp [h, ih]
    · have h' : pySpace c = false := by simpa using h
      simp [h', noLeadWS]

lemma dropWhile_id_of_noLead (l : List Char) (h : noLeadWS l = true) :
    l.dropWhile pySpace = l := by
  cases l with
  | nil => rfl
  | cons c rest =>
    rw [List.dropWhile_cons]
    simp [noLeadWS] at h
    simp [h]

lemma dropWhile_suffix_of (l : List Char) :
    ∃ t, t ++ l.dropWhile pySpace = l := by
  induction l with
  | nil => exact ⟨[], rfl⟩
  | cons c rest ih =>
    rw [List.dropWhile_cons]
    by_cases h : pySpace c = true
    · obtain ⟨t, ht⟩ := ih
      exact ⟨c :: t, by simp [h, ht]⟩
    · exact ⟨[], by simp [h]⟩

lemma pyStrip_subset (l : List Char) : ∀ c ∈ pyStrip l, c ∈ l := by
  intro c hc
  unfold pyStrip at hc
  rw [List.mem_reverse] at hc
  obtain ⟨t, ht⟩ := dropWhile_suffix_of (l.dropWhile pySpace).reverse
  obtain ⟨t2, ht2⟩ := dropWhile_suffix_of l
  have hc2 : c ∈ (l.dropWhile pySpace).reverse := by
    rw [← ht]; exact List.mem_append_right t hc
  rw [List.mem_reverse] at hc2
  rw [← ht2]
  exact List.mem_append_right t2 hc2

lemma pyStrip_noTrail (l : List Char) : noTrailWS (pyStrip l) = true := by
  rw [noTrail_eq]
  unfold pyStrip
  rw [List.reverse_reverse]
  exact dropWhile_noLead _

lemma pyStrip_noLead (l : List Char) : noLeadWS (pyStrip l) = true := by
  obtain ⟨t, ht⟩ := dropWhile_suffix_of (l.dropWhile pySpace).reverse
  have hdec : pyStrip l ++ t.reverse = l.dropWhile pySpace := by
    unfold pyStrip
    rw [← List.reverse_append, ht, List.reverse_reverse]
  cases hp : pyStrip l with
  | nil => rfl
  | cons c cs =>
    have hX := dropWhile_noLead l
    rw [← hdec, hp] at hX
    rw [List.cons_append] at hX
    exact hX

lemma pyStrip_id (l : List Char) (h1 : noLeadWS l = true) (h2 : noTrailWS l = true) :
    pyStrip l = l := by
  unfold pyStrip
  rw [dropWhile_id_of_noLead l h1]
  rw [noTrail_eq] at h2
  rw [dropWhile_id_of_noLead _ h2, List.reverse_reverse]

/-! collapse -/

lemma space_bne_of_not_ws {c : Char} (h : pySpace c = false) : (c == ' ') = false := by
  cases hc : c == ' '
  · rfl
  · exfalso
    rw [show c = ' ' from by simpa using hc] at h
    simp [pySpace] at h

lemma headSpace_false_of_noLead {l : List Char} (h : noLeadWS l = true) :
    headSpace l = false := by
  cases l with
  | nil => rfl
  | cons c r =>
    simp only [noLeadWS, Bool.not_eq_true'] at h
    simpa [headSpace] using space_bne_of_not_ws h

lemma noLead_of_all_headSpace {l : List Char}
    (hws : ∀ c ∈ l, pySpace c = true → c = ' ') (h : headSpace l = false) :
    noLeadWS l = true := by
  cases l with
  | nil => rfl
  | cons c r =>
    simp only [headSpace, beq_eq_false_iff_ne, ne_eq] at h
    simp only [noLeadWS, Bool.not_eq_true']
    cases hp : pySpace c
    · rfl
    · exact absurd (hws c (by simp) hp) h

lemma collapse_mem (l : List Char) :
    ∀ (b : Bool), ∀ c ∈ collapseAux b l, (c ∈ l ∧ pySpace c = false) ∨ c = ' ' := by
  induction l with
  | nil => intro b c hc; cases b <;> simp [collapseAux] at hc
  | cons d rest ih =>
    intro b c hc
    by_cases hws : pySpace d = true
    · cases b with
      | true =>
        simp only [collapseAux, hws, if_true] at hc
        rcases ih true c hc with ⟨hm, hns⟩ | hsp
        · exact Or.inl ⟨List.mem_cons_of_mem d hm, hns⟩
        · exact Or.inr hsp
      | false =>
        simp only [collapseAux, hws, if_true] at hc
        rcases List.mem_cons.mp hc with hceq | hc2
        · exact Or.inr hceq
        · rcases ih true c hc2 with ⟨hm, hns⟩ | hsp
          · exact Or.inl ⟨List.mem_cons_of_mem d hm, hns⟩
          · exact Or.inr hsp
    · have hws' : pySpace d = false := by simpa using hws
      simp only [collapseAux, hws', if_false, Bool.false_eq_true] at hc
      rcases List.mem_cons.mp hc with hceq | hc2
      · exact Or.inl ⟨by simp [hceq], hceq ▸ hws'⟩
      · rcases ih false c hc2 with ⟨hm, hns⟩ | hsp
        · exact Or.inl ⟨List.mem_cons_of_mem d hm, hns⟩
        · exact Or.inr hsp

lemma collapse_noLead_true (l : List Char) : noLeadWS (collapseAux true l) = true := by
  induction l with
  | nil => rfl
  | cons d rest ih =>
    by_cases hws : pySpace d = true
    · simpa [collapseAux, hws] using ih
    · have hws' : pySpace d = false := by simpa using hws
      simp [collapseAux, hws', noLeadWS]

lemma collapse_noDbl (l : List Char) : ∀ b, noDbl (collapseAux b l) = true := by
  induction l with
  | nil => intro b; cases b <;> rfl
  | cons d rest ih =>
    intro b
    by_cases hws : pySpace d = true
    · cases b with
      | true => simpa [collapseAux, hws] using ih true
      | false =>
        rw [show collapseAux false (d :: rest) = ' ' :: collapseAux true rest by
          simp [collapseAux, hws]]
        rw [noDbl_cons, headSpace_false_of_noLead (collapse_noLead_true rest), ih true]
        rfl
    · have hws' : pySpace d = false := by simpa using hws
      simp only [collapseAux, hws', if_false, Bool.false_eq_true]
      rw [noDbl_cons, space_bne_of_not_ws hws', ih false]
      rfl

lemma collapse_ne_nil (l : List Char) (h : l ≠ []) (ht : noTrailWS l = true) :
    ∀ b, collapseAux b l ≠ [] := by
  induction l with
  | nil => exact absurd rfl h
  | cons d rest ih =>
    intro b
    by_cases hws : pySpace d = true
    · cases rest with
      | nil => simp [noTrailWS, hws] at ht
      | cons e r2 =>
        rw [noTrail_cons d (e :: r2) (by simp)] at ht
        cases b with
        | true => simpa [collapseAux, hws] using ih (by simp) ht true
        | false => simp [collapseAux, hws]
    · have hws' : pySpace d = false := by simpa using hws
      simp [collapseAux, hws']

lemma collapse_noTrail (l : List Char) (ht : noTrailWS l = true) :
    ∀ b, noTrailWS (collapseAux b l) = true := by
  induction l with
  | nil => intro b; cases b <;> rfl
  | cons d rest ih =>
    intro b
    by_cases hws : pySpace d = true
    · cases rest with
      | nil => simp [noTrailWS, hws] at ht
      | cons e r2 =>
        rw [noTrail_cons d (e :: r2) (by simp)] at ht
        cases b with
        | true => simpa [collapseAux, hws] using ih ht true
        | false =>
          rw [show collapseAux false (d :: e :: r2) = ' ' :: collapseAux true (e :: r2) by
            simp [collapseAux, hws]]
          rw [noTrail_cons _ _ (collapse_ne_nil (e :: r2) (by simp) ht true)]
          exact ih ht true
    · have hws' : pySpace d = false := by simpa using hws
      simp only [collapseAux, hws', if_false, Bool.false_eq_true]
      cases rest with
      | nil => simpa [collapseAux, noTrailWS] using ht
      | cons e r2 =>
        rw [noTrail_cons d (e :: r2) (by simp)] at ht
        rw [noTrail_cons _ _ (collapse_ne_nil (e :: r2) (by simp) ht false)]
        exact ih ht false

lemma collapse_id (l : List Char) :
    ∀ b, (∀ c ∈ l, pySpace c = true → c = ' ') → noDbl l = true →
    (b = true → noLeadWS l = true) → collapseAux b l = l := by
  induction l with
  | nil => intro b _ _ _; cases b <;> rfl
  | cons d rest ih =>
    intro b hws hdbl hb
    by_cases h : pySpace d = true
    · have hd : d = ' ' := hws d (by simp) h
      cases b with
      | true =>
        exfalso
        have hlead := hb rfl
        rw [show noLeadWS (d :: rest) = !pySpace d from rfl, h] at hlead
        simp at hlead
      | false =>
        subst hd
        rw [show collapseAux false (' ' :: rest) = ' ' :: collapseAux true rest by
          simp [collapseAux, pySpace]]
        have hhs : headSpace rest = false := by
          rw [noDbl_cons] at hdbl
          have := (Bool.and_eq_true_iff.mp hdbl).1
          simpa using this
        rw [ih true (fun c hc hp => hws c (by simp [hc]) hp) (noDbl_tail _ _ hdbl)
          (fun _ => noLead_of_all_headSpace (fun c hc hp => hws c (by simp [hc]) hp) hhs)]
    · have hws' : pySpace d = false := by simpa using h
      simp only [collapseAux, hws', if_false, Bool.false_eq_true]
      rw [ih false (fun c hc hp => hws c (by simp [hc]) hp) (noDbl_tail _ _ hdbl)
        (fun hf => absurd hf (by simp))]

/-! replacement functions: structural lemmas -/

lemma collapse_noLead_of (l : List Char) (h : noLeadWS l = true) (b : Bool) :
    noLeadWS (collapseAux b l) = true := by
  cases l with
  | nil => cases b <;> rfl
  | cons c rest =>
    simp only [noLeadWS, Bool.not_eq_true'] at h
    simp [collapseAux, h, noLeadWS]

lemma mem_replSpaceWatt (l : List Char) : ∀ c ∈ replSpaceWatt l, c ∈ l ∨ c = 'w' := by
  induction l using replSpaceWatt.induct with
  | case1 rest ih =>
    intro c hc
    rw [replSpaceWatt] at hc
    rcases List.mem_cons.mp hc with h | h
    · exact Or.inr h
    · rcases ih c h with h' | h'
      · exact Or.inl (by simp [h'])
      · exact Or.inr h'
  | case2 c0 rest h2 ih =>
    intro c hc
    rw [replSpaceWatt] at hc
    · rcases List.mem_cons.mp hc with h | h
      · exact Or.inl (by simp [h])
      · rcases ih c h with h' | h'
        · exact Or.inl (by simp [h'])
        · exact Or.inr h'
    · exact h2
  | case3 => intro c hc; simp [replSpaceWatt] at hc

lemma mem_replSpaceW (l : List Char) : ∀ c ∈ replSpaceW l, c ∈ l ∨ c = 'w' := by
  induction l using replSpaceW.induct with
  | case1 rest ih =>
    intro c hc
    rw [replSpaceW] at hc
    rcases List.mem_cons.mp hc with h | h
    · exact Or.inr h
    · rcases ih c h with h' | h'
      · exact Or.inl (by simp [h'])
      · exact Or.inr h'
  | case2 c0 rest h2 ih =>
    intro c hc
    rw [replSpaceW] at hc
    · rcases List.mem_cons.mp hc with h | h
      · exact Or.inl (by simp [h])
      · rcases ih c h with h' | h'
        · exact Or.inl (by simp [h'])
        · exact Or.inr h'
    · exact h2
  | case3 => intro c hc; simp [replSpaceW] at hc

lemma mem_replSpaceLm (l : List Char) : ∀ c ∈ replSpaceLm l, c ∈ l := by
  induction l using replSpaceLm.induct with
  | case1 rest ih =>
    intro c hc
    rw [replSpaceLm] at hc
    rcases List.mem_cons.mp hc with h | h
    · simp [h]
    · rcases List.mem_cons.mp h with h' | h'
      · simp [h']
      · have := ih c h'
        simp [this]
  | case2 c0 rest h2 ih =>
    intro c hc
    rw [replSpaceLm] at hc
    · rcases List.mem_cons.mp hc with h | h
      · simp [h]
      · have := ih c h
        simp [this]
    · exact h2
  | case3 => intro c hc; simp [replSpaceLm] at hc

lemma mem_replSpaceK (l : List Char) : ∀ c ∈ replSpaceK l, c ∈ l := by
  induction l using replSpaceK.induct with
  | case1 rest ih =>
    intro c hc
    rw [replSpaceK] at hc
    rcases List.mem_cons.mp hc with h | h
    · simp [h]
    · have := ih c h
      simp [this]
  | case2 c0 rest h2 ih =>
    intro c hc
    rw [replSpaceK] at hc
    · rcases List.mem_cons.mp hc with h | h
      · simp [h]
      · have := ih c h
        simp [this]
    · exact h2
  | case3 => intro c hc; simp [replSpaceK] at hc

lemma headSpace_replSpaceWatt (l : List Char)
    (h : headSpace (replSpaceWatt l) = true) : headSpace l = true := by
  induction l using replSpaceWatt.induct with
  | case1 rest ih => rfl
  | case2 c rest h2 ih =>
    rw [replSpaceWatt] at h
    · exact h
    · exact h2
  | case3 => simp [replSpaceWatt, headSpace] at h

lemma headSpace_replSpaceW (l : List Char)
    (h : headSpace (replSpaceW l) = true) : headSpace l = true := by
  induction l using replSpaceW.induct with
  | case1 rest ih => rfl
  | case2 c rest h2 ih =>
    rw [replSpaceW] at h
    · exact h
    · exact h2
  | case3 => simp [replSpaceW, headSpace] at h

lemma headSpace_replSpaceLm (l : List Char)
    (h : headSpace (replSpaceLm l) = true) : headSpace l = true := by
  induction l using replSpaceLm.induct with
  | case1 rest ih => rfl
  | case2 c rest h2 ih =>
    rw [replSpaceLm] at h
    · exact h
    · exact h2
  | case3 => simp [replSpaceLm, headSpace] at h

lemma headSpace_replSpaceK (l : List Char)
    (h : headSpace (replSpaceK l) = true) : headSpace l = true := by
  induction l using replSpaceK.induct with
  | case1 rest ih => rfl
  | case2 c rest h2 ih =>
    rw [replSpaceK] at h
    · exact h
    · exact h2
  | case3 => simp [replSpaceK, headSpace] at h

lemma ne_nil_replSpaceWatt (l : List Char) (h : l ≠ []) : replSpaceWatt l ≠ [] := by
  induction l using replSpaceWatt.induct with
  | case1 rest ih => rw [replSpaceWatt]; simp
  | case2 c rest h2 ih =>
    rw [replSpaceWatt]
    · simp
    · exact h2
  | case3 => exact absurd rfl h

lemma ne_nil_replSpaceW (l : List Char) (h : l ≠ []) : replSpaceW l ≠ [] := by
  induction l using replSpaceW.induct with
  | case1 rest ih => rw [replSpaceW]; simp
  | case2 c rest h2 ih =>
    rw [replSpaceW]
    · simp
    · exact h2
  | case3 => exact absurd rfl h

lemma ne_nil_replSpaceLm (l : List Char) (h : l ≠ []) : replSpaceLm l ≠ [] := by
  induction l using replSpaceLm.induct with
  | case1 rest ih => rw [replSpaceLm]; simp
  | case2 c rest h2 ih =>
    rw [replSpaceLm]
    · simp
    · exact h2
  | case3 => exact absurd rfl h

lemma ne_nil_replSpaceK (l : List Char) (h : l ≠ []) : replSpaceK l ≠ [] := by
  induction l using replSpaceK.induct with
  | case1 rest ih => rw [replSpaceK]; simp
  | case2 c rest h2 ih =>
    rw [replSpaceK]
    · simp
    · exact h2
  | case3 => exact absurd rfl h

lemma noDbl_cons_of (c : Char) (l : List Char) (h1 : noDbl l = true)
    (h2 : c = ' ' → headSpace l = false) : noDbl (c :: l) = true := by
  rw [noDbl_cons, h1]
  cases hc : c == ' '
  · rfl
  · rw [h2 (by simpa using hc)]
    rfl

lemma noDbl_replSpaceWatt (l : List Char) (hd : noDbl l = true) :
    noDbl (replSpaceWatt l) = true := by
  induction l using replSpaceWatt.induct with
  | case1 rest ih =>
    rw [replSpaceWatt]
    have hrest : noDbl rest = true :=
      noDbl_tail _ _ (noDbl_tail _ _ (noDbl_tail _ _ (noDbl_tail _ _ (noDbl_tail _ _ hd))))
    exact noDbl_cons_of _ _ (ih hrest) (fun hw => by simp at hw)
  | case2 c rest h2 ih =>
    rw [replSpaceWatt]
    · refine noDbl_cons_of _ _ (ih (noDbl_tail _ _ hd)) (fun hc => ?_)
      subst hc
      cases hhs : headSpace (replSpaceWatt rest)
      · rfl
      · exfalso
        have hr := headSpace_replSpaceWatt rest hhs
        rw [noDbl_cons] at hd
        rw [hr] at hd
        simp at hd
    · exact h2
  | case3 => exact hd

lemma noDbl_replSpaceW (l : List Char) (hd : noDbl l = true) :
    noDbl (replSpaceW l) = true := by
  induction l using replSpaceW.induct with
  | case1 rest ih =>
    rw [replSpaceW]
    have hrest : noDbl rest = true := noDbl_tail _ _ (noDbl_tail _ _ hd)
    exact noDbl_cons_of _ _ (ih hrest) (fun hw => by simp at hw)
  | case2 c rest h2 ih =>
    rw [replSpaceW]
    · refine noDbl_cons_of _ _ (ih (noDbl_tail _ _ hd)) (fun hc => ?_)
      subst hc
      cases hhs : headSpace (replSpaceW rest)
      · rfl
      · exfalso
        have hr := headSpace_replSpaceW rest hhs
        rw [noDbl_cons] at hd
        rw [hr] at hd
        simp at hd
    · exact h2
  | case3 => exact hd

lemma noDbl_replSpaceLm (l : List Char) (hd : noDbl l = true) :
    noDbl (replSpaceLm l) = true := by
  induction l using replSpaceLm.induct with
  | case1 rest ih =>
    rw [replSpaceLm]
    have hrest : noDbl rest = true :=
      noDbl_tail _ _ (noDbl_tail _ _ (noDbl_tail _ _ hd))
    refine noDbl_cons_of _ _ ?_ (fun hl => by simp at hl)
    exact noDbl_cons_of _ _ (ih hrest) (fun hm => by simp at hm)
  | case2 c rest h2 ih =>
    rw [replSpaceLm]
    · refine noDbl_cons_of _ _ (ih (noDbl_tail _ _ hd)) (fun hc => ?_)
      subst hc
      cases hhs : headSpace (replSpaceLm rest)
      · rfl
      · exfalso
        have hr := headSpace_replSpaceLm rest hhs
        rw [noDbl_cons] at hd
        rw [hr] at hd
        simp at hd
    · exact h2
  | case3 => exact hd

lemma noDbl_replSpaceK (l : List Char) (hd : noDbl l = true) :
    noDbl (replSpaceK l) = true := by
  induction l using replSpaceK.induct with
  | case1 rest ih =>
    rw [replSpaceK]
    have hrest : noDbl rest = true := noDbl_tail _ _ (noDbl_tail _ _ hd)
    exact noDbl_cons_of _ _ (ih hrest) (fun hk => by simp at hk)
  | case2 c rest h2 ih =>
    rw [replSpaceK]
    · refine noDbl_cons_of _ _ (ih (noDbl_tail _ _ hd)) (fun hc => ?_)
      subst hc
      cases hhs : headSpace (replSpaceK rest)
      · rfl
      · exfalso
        have hr := headSpace_replSpaceK rest hhs
        rw [noDbl_cons] at hd
        rw [hr] at hd
        simp at hd
    · exact h2
  | case3 => exact hd

lemma noTrail_replSpaceWatt (l : List Char) (ht : noTrailWS l = true) :
    noTrailWS (replSpaceWatt l) = true := by
  induction l using replSpaceWatt.induct with
  | case1 rest ih =>
    rw [replSpaceWatt]
    cases rest with
    | nil => decide
    | cons e r =>
      rw [noTrail_cons _ _ (by simp), noTrail_cons _ _ (by simp),
        noTrail_cons _ _ (by simp), noTrail_cons _ _ (by simp),
        noTrail_cons _ _ (by simp)] at ht
      rw [noTrail_cons _ _ (ne_nil_replSpaceWatt (e :: r) (by simp))]
      exact ih ht
  | case2 c rest h2 ih =>
    rw [replSpaceWatt]
    · cases rest with
      | nil => exact ht
      | cons e r =>
        rw [noTrail_cons _ _ (by simp)] at ht
        rw [noTrail_cons _ _ (ne_nil_replSpaceWatt (e :: r) (by simp))]
        exact ih ht
    · exact h2
  | case3 => exact ht

lemma noTrail_replSpaceW (l : List Char) (ht : noTrailWS l = true) :
    noTrailWS (replSpaceW l) = true := by
  induction l using replSpaceW.induct with
  | case1 rest ih =>
    rw [replSpaceW]
    cases rest with
    | nil => decide
    | cons e r =>
      rw [noTrail_cons _ _ (by simp), noTrail_cons _ _ (by simp)] at ht
      rw [noTrail_cons _ _ (ne_nil_replSpaceW (e :: r) (by simp))]
      exact ih ht
  | case2 c rest h2 ih =>
    rw [replSpaceW]
    · cases rest with
      | nil => exact ht
      | cons e r =>
        rw [noTrail_cons _ _ (by simp)] at ht
        rw [noTrail_cons _ _ (ne_nil_replSpaceW (e :: r) (by simp))]
        exact ih ht
    · exact h2
  | case3 => exact ht

lemma noTrail_replSpaceLm (l : List Char) (ht : noTrailWS l = true) :
    noTrailWS (replSpaceLm l) = true := by
  induction l using replSpaceLm.induct with
  | case1 rest ih =>
    rw [replSpaceLm]
    cases rest with
    | nil => decide
    | cons e r =>
      rw [noTrail_cons _ _ (by simp), noTrail_cons _ _ (by simp),
        noTrail_cons _ _ (by simp)] at ht
      rw [noTrail_cons _ _ (by simp), noTrail_cons _ _ (ne_nil_replSpaceLm (e :: r) (by simp))]
      exact ih ht
  | case2 c rest h2 ih =>
    rw [replSpaceLm]
    · cases rest with
      | nil => exact ht
      | cons e r =>
        rw [noTrail_cons _ _ (by simp)] at ht
        rw [noTrail_cons _ _ (ne_nil_replSpaceLm (e :: r) (by simp))]
        exact ih ht
    · exact h2
  | case3 => exact ht

lemma noTrail_replSpaceK (l : List Char) (ht : noTrailWS l = true) :
    noTrailWS (replSpaceK l) = true := by
  induction l using replSpaceK.induct with
  | case1 rest ih =>
    rw [replSpaceK]
    cases rest with
    | nil => decide
    | cons e r =>
      rw [noTrail_cons _ _ (by simp), noTrail_cons _ _ (by simp)] at ht
      rw [noTrail_cons _ _ (ne_nil_replSpaceK (e :: r) (by simp))]
      exact ih ht
  | case2 c rest h2 ih =>
    rw [replSpaceK]
    · cases rest with
      | nil => exact ht
      | cons e r =>
        rw [noTrail_cons _ _ (by simp)] at ht
        rw [noTrail_cons _ _ (ne_nil_replSpaceK (e :: r) (by simp))]
        exact ih ht
    · exact h2
  | case3 => exact ht

lemma noLead_replSpaceWatt (l : List Char) (h : noLeadWS l = true) :
    noLeadWS (replSpaceWatt l) = true := by
  induction l using replSpaceWatt.induct with
  | case1 rest ih => simp [noLeadWS, pySpace] at h
  | case2 c rest h2 ih =>
    rw [replSpaceWatt]
    · exact h
    · exact h2
  | case3 => rfl

lemma noLead_replSpaceW (l : List Char) (h : noLeadWS l = true) :
    noLeadWS (replSpaceW l) = true := by
  induction l using replSpaceW.induct with
  | case1 rest ih => simp [noLeadWS, pySpace] at h
  | case2 c rest h2 ih =>
    rw [replSpaceW]
    · exact h
    · exact h2
  | case3 => rfl

lemma noLead_replSpaceLm (l : List Char) (h : noLeadWS l = true) :
    noLeadWS (replSpaceLm l) = true := by
  induction l using replSpaceLm.induct with
  | case1 rest ih => simp [noLeadWS, pySpace] at h
  | case2 c rest h2 ih =>
    rw [replSpaceLm]
    · exact h
    · exact h2
  | case3 => rfl

lemma noLead_replSpaceK (l : List Char) (h : noLeadWS l = true) :
    noLeadWS (replSpaceK l) = true := by
  induction l using replSpaceK.induct with
  | case1 rest ih => simp [noLeadWS, pySpace] at h
  | case2 c rest h2 ih =>
    rw [replSpaceK]
    · exact h
    · exact h2
  | case3 => rfl

lemma id_replSpaceWatt (l : List Char) (h : containsSub [' ', 'w'] l = false) :
    replSpaceWatt l = l := by
  induction l using replSpaceWatt.induct with
  | case1 rest ih => simp [containsSub, List.isPrefixOf] at h
  | case2 c rest h2 ih =>
    simp only [containsSub, Bool.or_eq_false_iff] at h
    rw [replSpaceWatt]
    · rw [ih h.2]
    · exact h2
  | case3 => rfl

lemma id_replSpaceW (l : List Char) (h : containsSub [' ', 'w'] l = false) :
    replSpaceW l = l := by
  induction l using replSpaceW.induct with
  | case1 rest ih => simp [containsSub, List.isPrefixOf] at h
  | case2 c rest h2 ih =>
    simp only [containsSub, Bool.or_eq_false_iff] at h
    rw [replSpaceW]
    · rw [ih h.2]
    · exact h2
  | case3 => rfl

lemma id_replSpaceLm (l : List Char) (h : containsSub [' ', 'l', 'm'] l = false) :
    replSpaceLm l = l := by
  induction l using replSpaceLm.induct with
  | case1 rest ih => simp [containsSub, List.isPrefixOf] at h
  | case2 c rest h2 ih =>
    simp only [containsSub, Bool.or_eq_false_iff] at h
    rw [replSpaceLm]
    · rw [ih h.2]
    · exact h2
  | case3 => rfl

lemma id_replSpaceK (l : List Char) (h : containsSub [' ', 'k'] l = false) :
    replSpaceK l = l := by
  induction l using replSpaceK.induct with
  | case1 rest ih => simp [containsSub, List.isPrefixOf] at h
  | case2 c rest h2 ih =>
    simp only [containsSub, Bool.or_eq_false_iff] at h
    rw [replSpaceK]
    · rw [ih h.2]
    · exact h2
  | case3 => rfl

/-! replacement functions: pattern-absence lemmas -/

lemma pref_w_replSpaceW (r : List Char) (h : ['w'].isPrefixOf (replSpaceW r) = true) :
    headSpace r = true ∨ ['w'].isPrefixOf r = true := by
  induction r using replSpaceW.induct with
  | case1 rest ih => exact Or.inl rfl
  | case2 c rest h2 ih =>
    rw [replSpaceW] at h
    · right
      simp only [List.isPrefixOf, Bool.and_true] at h ⊢
      exact h
    · exact h2
  | case3 => simp [replSpaceW, List.isPrefixOf] at h

lemma pref_w_replSpaceLm (r : List Char) (h : ['w'].isPrefixOf (replSpaceLm r) = true) :
    ['w'].isPrefixOf r = true := by
  induction r using replSpaceLm.induct with
  | case1 rest ih => simp [replSpaceLm, List.isPrefixOf] at h
  | case2 c rest h2 ih =>
    rw [replSpaceLm] at h
    · simp only [List.isPrefixOf, Bool.and_true] at h ⊢
      exact h
    · exact h2
  | case3 => simp [replSpaceLm, List.isPrefixOf] at h

lemma pref_m_replSpaceLm (r : List Char) (h : ['m'].isPrefixOf (replSpaceLm r) = true) :
    ['m'].isPrefixOf r = true := by
  induction r using replSpaceLm.induct with
  | case1 rest ih => simp [replSpaceLm, List.isPrefixOf] at h
  | case2 c rest h2 ih =>
    rw [replSpaceLm] at h
    · simp only [List.isPrefixOf, Bool.and_true] at h ⊢
      exact h
    · exact h2
  | case3 => simp [replSpaceLm, List.isPrefixOf] at h

lemma pref_w_replSpaceK (r : List Char) (h : ['w'].isPrefixOf (replSpaceK r) = true) :
    ['w'].isPrefixOf r = true := by
  induction r using replSpaceK.induct with
  | case1 rest ih => simp [replSpaceK, List.isPrefixOf] at h
  | case2 c rest h2 ih =>
    rw [replSpaceK] at h
    · simp only [List.isPrefixOf, Bool.and_true] at h ⊢
      exact h
    · exact h2
  | case3 => simp [replSpaceK, List.isPrefixOf] at h

lemma pref_m_replSpaceK (r : List Char) (h : ['m'].isPrefixOf (replSpaceK r) = true) :
    ['m'].isPrefixOf r = true := by
  induction r using replSpaceK.induct with
  | case1 rest ih => simp [replSpaceK, List.isPrefixOf] at h
  | case2 c rest h2 ih =>
    rw [replSpaceK] at h
    · simp only [List.isPrefixOf, Bool.and_true] at h ⊢
      exact h
    · exact h2
  | case3 => simp [replSpaceK, List.isPrefixOf] at h

lemma pref_lm_replSpaceK (r : List Char) (h : ['l', 'm'].isPrefixOf (replSpaceK r) = true) :
    ['l', 'm'].isPrefixOf r = true := by
  induction r using replSpaceK.induct with
  | case1 rest ih => simp [replSpaceK, List.isPrefixOf] at h
  | case2 c rest h2 ih =>
    rw [replSpaceK] at h
    · simp only [List.isPrefixOf, Bool.and_eq_true] at h ⊢
      refine ⟨h.1, ?_⟩
      cases rest with
      | nil => simpa [replSpaceK, List.isPrefixOf] using h.2
      | cons e r2 =>
        have h3 := pref_m_replSpaceK (e :: r2) ?_
        · simpa [List.isPrefixOf] using h3
        · simpa [List.isPrefixOf] using h.2
    · exact h2
  | case3 => simp [replSpaceK, List.isPrefixOf] at h

lemma pref_k_replSpaceK (r : List Char) (h : ['k'].isPrefixOf (replSpaceK r) = true) :
    headSpace r = true ∨ ['k'].isPrefixOf r = true := by
  induction r using replSpaceK.induct with
  | case1 rest ih => exact Or.inl rfl
  | case2 c rest h2 ih =>
    rw [replSpaceK] at h
    · right
      simp only [List.isPrefixOf, Bool.and_true] at h ⊢
      exact h
    · exact h2
  | case3 => simp [replSpaceK, List.isPrefixOf] at h

lemma no_sw_replSpaceW (l : List Char) (hd : noDbl l = true) :
    containsSub [' ', 'w'] (replSpaceW l) = false := by
  induction l using replSpaceW.induct with
  | case1 rest ih =>
    rw [replSpaceW]
    simp only [containsSub, Bool.or_eq_false_iff]
    exact ⟨by simp [List.isPrefixOf], ih (noDbl_tail _ _ (noDbl_tail _ _ hd))⟩
  | case2 c rest h2 ih =>
    rw [replSpaceW]
    · simp only [containsSub, Bool.or_eq_false_iff]
      refine ⟨?_, ih (noDbl_tail _ _ hd)⟩
      simp only [List.isPrefixOf]
      cases hc : (' ' == c)
      · simp
      · have hc' : c = ' ' := by
          have hcs : ' ' = c := by simpa using hc
          exact hcs.symm
        cases hw : ['w'].isPrefixOf (replSpaceW rest)
        · simp [hw]
        · exfalso
          rcases pref_w_replSpaceW rest hw with hs | hp
          · subst hc'
            rw [noDbl_cons, hs] at hd
            simp at hd
          · cases rest with
            | nil => simp [List.isPrefixOf] at hp
            | cons e r =>
              have he : e = 'w' := by
                have h4 : 'w' = e := by simpa [List.isPrefixOf] using hp
                exact h4.symm
              exact h2 r hc' (by rw [he])
    · exact h2
  | case3 => decide

lemma no_slm_replSpaceLm (l : List Char) (hd : noDbl l = true) :
    containsSub [' ', 'l', 'm'] (replSpaceLm l) = false := by
  induction l using replSpaceLm.induct with
  | case1 rest ih =>
    rw [replSpaceLm]
    simp only [containsSub, Bool.or_eq_false_iff]
    exact ⟨by simp [List.isPrefixOf], by simp [List.isPrefixOf],
      ih (noDbl_tail _ _ (noDbl_tail _ _ (noDbl_tail _ _ hd)))⟩
  | case2 c rest h2 ih =>
    rw [replSpaceLm]
    · simp only [containsSub, Bool.or_eq_false_iff]
      refine ⟨?_, ih (noDbl_tail _ _ hd)⟩
      simp only [List.isPrefixOf]
      cases hc : (' ' == c)
      · simp
      · have hc' : c = ' ' := by
          have hcs : ' ' = c := by simpa using hc
          exact hcs.symm
        cases hlm : ['l', 'm'].isPrefixOf (replSpaceLm rest)
        · simp [hlm]
        · exfalso
          cases rest with
          | nil => simp [replSpaceLm, List.isPrefixOf] at hlm
          | cons e r =>
            by_cases he : e = ' '
            · subst hc' he
              rw [noDbl_cons] at hd
              simp [headSpace] at hd
            · have heq : replSpaceLm (e :: r) = e :: replSpaceLm r := by
                rw [replSpaceLm]
                intro rest1 hce _
                exact he hce
              rw [heq] at hlm
              simp only [List.isPrefixOf, Bool.and_eq_true] at hlm
              obtain ⟨hel, hm⟩ := hlm
              have hel' : e = 'l' := by
                have h5 : 'l' = e := by simpa using hel
                exact h5.symm
              have hm' := pref_m_replSpaceLm r hm
              cases r with
              | nil => simp [List.isPrefixOf] at hm'
              | cons f r2 =>
                have hf : f = 'm' := by
                  have h4 : 'm' = f := by simpa [List.isPrefixOf] using hm'
                  exact h4.symm
                exact h2 r2 hc' (by rw [hel', hf])
    · exact h2
  | case3 => decide

lemma no_sk_replSpaceK (l : List Char) (hd : noDbl l = true) :
    containsSub [' ', 'k'] (replSpaceK l) = false := by
  induction l using replSpaceK.induct with
  | case1 rest ih =>
    rw [replSpaceK]
    simp only [containsSub, Bool.or_eq_false_iff]
    exact ⟨by simp [List.isPrefixOf], ih (noDbl_tail _ _ (noDbl_tail _ _ hd))⟩
  | case2 c rest h2 ih =>
    rw [replSpaceK]
    · simp only [containsSub, Bool.or_eq_false_iff]
      refine ⟨?_, ih (noDbl_tail _ _ hd)⟩
      simp only [List.isPrefixOf]
      cases hc : (' ' == c)
      · simp
      · have hc' : c = ' ' := by
          have hcs : ' ' = c := by simpa using hc
          exact hcs.symm
        cases hk : ['k'].isPrefixOf (replSpaceK rest)
        · simp [hk]
        · exfalso
          rcases pref_k_replSpaceK rest hk with hs | hp
          · subst hc'
            rw [noDbl_cons, hs] at hd
            simp at hd
          · cases rest with
            | nil => simp [List.isPrefixOf] at hp
            | cons e r =>
              have he : e = 'k' := by
                have h4 : 'k' = e := by simpa [List.isPrefixOf] using hp
                exact h4.symm
              exact h2 r hc' (by rw [he])
    · exact h2
  | case3 => decide

lemma no_sw_replSpaceLm (l : List Char) (h : containsSub [' ', 'w'] l = false) :
    containsSub [' ', 'w'] (replSpaceLm l) = false := by
  induction l using replSpaceLm.induct with
  | case1 rest ih =>
    rw [replSpaceLm]
    simp only [containsSub, Bool.or_eq_false_iff] at h ⊢
    exact ⟨by simp [List.isPrefixOf], by simp [List.isPrefixOf], ih h.2.2.2⟩
  | case2 c rest h2 ih =>
    rw [replSpaceLm]
    · simp only [containsSub, Bool.or_eq_false_iff] at h ⊢
      refine ⟨?_, ih h.2⟩
      have h1 := h.1
      simp only [List.isPrefixOf] at h1 ⊢
      cases hc : (' ' == c)
      · simp
      · rw [hc] at h1
        cases hw : ['w'].isPrefixOf (replSpaceLm rest)
        · simp [hw]
        · exfalso
          rw [pref_w_replSpaceLm rest hw] at h1
          simp at h1
    · exact h2
  | case3 => decide

lemma no_sw_replSpaceK (l : List Char) (h : containsSub [' ', 'w'] l = false) :
    containsSub [' ', 'w'] (replSpaceK l) = false := by
  induction l using replSpaceK.induct with
  | case1 rest ih =>
    rw [replSpaceK]
    simp only [containsSub, Bool.or_eq_false_iff] at h ⊢
    exact ⟨by simp [List.isPrefixOf], ih h.2.2⟩
  | case2 c rest h2 ih =>
    rw [replSpaceK]
    · simp only [containsSub, Bool.or_eq_false_iff] at h ⊢
      refine ⟨?_, ih h.2⟩
      have h1 := h.1
      simp only [List.isPrefixOf] at h1 ⊢
      cases hc : (' ' == c)
      · simp
      · rw [hc] at h1
        cases hw : ['w'].isPrefixOf (replSpaceK rest)
        · simp [hw]
        · exfalso
          rw [pref_w_replSpaceK rest hw] at h1
          simp at h1
    · exact h2
  | case3 => decide

lemma no_slm_replSpaceK (l : List Char) (h : containsSub [' ', 'l', 'm'] l = false) :
    containsSub [' ', 'l', 'm'] (replSpaceK l) = false := by
  induction l using replSpaceK.induct with
  | case1 rest ih =>
    rw [replSpaceK]
    simp only [containsSub, Bool.or_eq_false_iff] at h ⊢
    exact ⟨by simp [List.isPrefixOf], ih h.2.2⟩
  | case2 c rest h2 ih =>
    rw [replSpaceK]
    · simp only [containsSub, Bool.or_eq_false_iff] at h ⊢
      refine ⟨?_, ih h.2⟩
      have h1 := h.1
      simp only [List.isPrefixOf] at h1 ⊢
      cases hc : (' ' == c)
      · simp
      · rw [hc] at h1
        cases hlm : ['l', 'm'].isPrefixOf (replSpaceK rest)
        · simp [hlm]
        · exfalso
          have := pref_lm_replSpaceK rest hlm
          simp only [List.isPrefixOf] at this
          rw [this] at h1
          simp at h1
    · exact h2
  | case3 => decide

/-! assembling the normal form of `normalize_value` output -/

lemma okChar_split {c : Char} (h : okChar c = true) :
    pyLower c = c ∧ c ≠ '–' ∧ (pySpace c = true → c = ' ') := by
  simp only [okChar, Bool.and_eq_true, Bool.or_eq_true, Bool.not_eq_true',
    bne_iff_ne, ne_eq, beq_iff_eq] at h
  obtain ⟨⟨h1, h2⟩, h3⟩ := h
  refine ⟨h1, h2, fun hp => ?_⟩
  rcases h3 with h3 | h3
  · exact absurd hp (by simp [h3])
  · exact h3

lemma pySpace_dashFix (c : Char) : pySpace (dashFix c) = pySpace c := by
  by_cases h : c = '–'
  · subst h; decide
  · simp [dashFix, h]

lemma okChar_of_l3 (v : List Char) :
    ∀ c ∈ (pyStrip (v.map pyLower)).map dashFix, pyLower c = c ∧ c ≠ '–' := by
  intro c hc
  rw [List.mem_map] at hc
  obtain ⟨d, hd, hdc⟩ := hc
  have hd2 := pyStrip_subset _ d hd
  rw [List.mem_map] at hd2
  obtain ⟨x, _, hxd⟩ := hd2
  subst hdc
  by_cases hdash : d = '–'
  · subst hdash
    exact ⟨by decide, by decide⟩
  · have hfix : dashFix d = d := by simp [dashFix, hdash]
    rw [hfix]
    refine ⟨?_, hdash⟩
    rw [← hxd, pyLower_idem]

lemma norm_okChars (v : List Char) : ∀ c ∈ normalize_value v, okChar c = true := by
  intro c hc
  unfold normalize_value at hc
  have h1 := mem_replSpaceK _ c hc
  have h2 := mem_replSpaceLm _ c h1
  rcases mem_replSpaceW _ c h2 with h3 | hw
  · rcases mem_replSpaceWatt _ c h3 with h4 | hw
    · rcases collapse_mem _ false c h4 with ⟨h5, hns⟩ | hsp
      · obtain ⟨hlow, hnd⟩ := okChar_of_l3 v c h5
        simp [okChar, hlow, hnd, hns]
      · subst hsp; decide
    · subst hw; decide
  · subst hw; decide

lemma norm_noDbl (v : List Char) : noDbl (normalize_value v) = true := by
  unfold normalize_value
  exact noDbl_replSpaceK _ (noDbl_replSpaceLm _ (noDbl_replSpaceW _
    (noDbl_replSpaceWatt _ (collapse_noDbl _ false))))

lemma noLead_map_dashFix (l : List Char) :
    noLeadWS (l.map dashFix) = noLeadWS l := by
  cases l with
  | nil => rfl
  | cons c rest => simp [noLeadWS, pySpace_dashFix]

lemma noTrail_map_dashFix (l : List Char) :
    noTrailWS (l.map dashFix) = noTrailWS l := by
  induction l with
  | nil => rfl
  | cons c rest ih =>
    cases rest with
    | nil => simp [noTrailWS, pySpace_dashFix]
    | cons d r2 =>
      rw [List.map_cons, noTrail_cons _ _ (by simp), noTrail_cons _ _ (by simp)]
      exact ih

lemma norm_noLead (v : List Char) : noLeadWS (normalize_value v) = true := by
  unfold normalize_value
  refine noLead_replSpaceK _ (noLead_replSpaceLm _ (noLead_replSpaceW _
    (noLead_replSpaceWatt _ (collapse_noLead_of _ ?_ false))))
  rw [noLead_map_dashFix]
  exact pyStrip_noLead _

lemma norm_noTrail (v : List Char) : noTrailWS (normalize_value v) = true := by
  unfold normalize_value
  refine noTrail_replSpaceK _ (noTrail_replSpaceLm _ (noTrail_replSpaceW _
    (noTrail_replSpaceWatt _ (collapse_noTrail _ ?_ false))))
  rw [noTrail_map_dashFix]
  exact pyStrip_noTrail _

lemma norm_no_sw (v : List Char) :
    containsSub [' ', 'w'] (normalize_value v) = false := by
  unfold normalize_value
  exact no_sw_replSpaceK _ (no_sw_replSpaceLm _ (no_sw_replSpaceW _
    (noDbl_replSpaceWatt _ (collapse_noDbl _ false))))

lemma norm_no_slm (v : List Char) :
    containsSub [' ', 'l', 'm'] (normalize_value v) = false := by
  unfold normalize_value
  exact no_slm_replSpaceK _ (no_slm_replSpaceLm _ (noDbl_replSpaceW _
    (noDbl_replSpaceWatt _ (collapse_noDbl _ false))))

lemma norm_no_sk (v : List Char) :
    containsSub [' ', 'k'] (normalize_value v) = false := by
  unfold normalize_value
  exact no_sk_replSpaceK _ (noDbl_replSpaceLm _ (noDbl_replSpaceW _
    (noDbl_replSpaceWatt _ (collapse_noDbl _ false))))

lemma normalize_id (l : List Char)
    (hok : ∀ c ∈ l, okChar c = true) (hdb : noDbl l = true)
    (hnl : noLeadWS l = true) (hnt : noTrailWS l = true)
    (hw : containsSub [' ', 'w'] l = false)
    (hlm : containsSub [' ', 'l', 'm'] l = false)
    (hk : containsSub [' ', 'k'] l = false) :
    normalize_value l = l := by
  unfold normalize_value
  rw [map_id_mem l (fun c hc => (okChar_split (hok c hc)).1)]
  rw [pyStrip_id l hnl hnt]
  rw [map_id_mem l (fun c hc => by
    simp [dashFix, (okChar_split (hok c hc)).2.1])]
  rw [collapse_id l false (fun c hc hp => (okChar_split (hok c hc)).2.2 hp) hdb
    (fun hf => absurd hf (by simp))]
  rw [id_replSpaceWatt l hw, id_replSpaceW l hw, id_replSpaceLm l hlm,
    id_replSpaceK l hk]

/-! ### Partition of the workflow loop into per-entry classifications -/

lemma ebind_ok {α β : Type} (a : α) (f : α → Except Unit β) :
    (Except.ok a >>= f) = f a := rfl

lemma filterMap_cons_toList {α β : Type} (f : α → Option β) (a : α) (l : List α) :
    List.filterMap f (a :: l) = (f a).toList ++ List.filterMap f l := by
  cases h : f a <;> simp [List.filterMap_cons, h]

lemma csMatchedFmt_skip (manual k v : List Char)
    (he : (normalize_value v).isEmpty = true) : csMatchedFmt manual (k, v) = none := by
  unfold csMatchedFmt
  rw [if_pos he]

lemma csMismatchFmt_skip (manual k v : List Char)
    (he : (normalize_value v).isEmpty = true) : csMismatchFmt manual (k, v) = none := by
  unfold csMismatchFmt
  rw [if_pos he]

lemma csMissingFmt_skip (manual k v : List Char)
    (he : (normalize_value v).isEmpty = true) : csMissingFmt manual (k, v) = none := by
  unfold csMissingFmt
  rw [if_pos he]

lemma csFmt_matched (manual k v : List Char) (o : Option (List Char))
    (he : (normalize_value v).isEmpty = false)
    (hr : compare_attribute (normalize_value v) manual = (true, o)) :
    csMatchedFmt manual (k, v) = some (fmtMatched k (.str v)) ∧
    csMismatchFmt manual (k, v) = none ∧ csMissingFmt manual (k, v) = none := by
  refine ⟨?_, ?_, ?_⟩
  · unfold csMatchedFmt
    rw [if_neg (by simp [he]), hr]
    rfl
  · unfold csMismatchFmt
    rw [if_neg (by simp [he]), hr]
  · unfold csMissingFmt
    rw [if_neg (by simp [he]), hr]

lemma csFmt_mismatch (manual k v c : List Char)
    (he : (normalize_value v).isEmpty = false) (hc : c.isEmpty = false)
    (hr : compare_attribute (normalize_value v) manual = (false, some c)) :
    csMatchedFmt manual (k, v) = none ∧
    csMismatchFmt manual (k, v) = some (fmtMismatch k c (normalize_value v)) ∧
    csMissingFmt manual (k, v) = none := by
  refine ⟨?_, ?_, ?_⟩
  · unfold csMatchedFmt
    rw [if_neg (by simp [he]), hr]
    rfl
  · unfold csMismatchFmt
    rw [if_neg (by simp [he]), hr]
    show (if c.isEmpty = true then none
      else some (fmtMismatch k c (normalize_value v))) = _
    rw [if_neg (by simp [hc])]
  · unfold csMissingFmt
    rw [if_neg (by simp [he]), hr]
    show (if c.isEmpty = true then some (fmtMissing k (normalize_value v))
      else none) = _
    rw [if_neg (by simp [hc])]

lemma csFmt_missing_none (manual k v : List Char)
    (he : (normalize_value v).isEmpty = false)
    (hr : compare_attribute (normalize_value v) manual = (false, none)) :
    csMatchedFmt manual (k, v) = none ∧ csMismatchFmt manual (k, v) = none ∧
    csMissingFmt manual (k, v) = some (fmtMissing k (normalize_value v)) := by
  refine ⟨?_, ?_, ?_⟩
  · unfold csMatchedFmt
    rw [if_neg (by simp [he]), hr]
    rfl
  · unfold csMismatchFmt
    rw [if_neg (by simp [he]), hr]
  · unfold csMissingFmt
    rw [if_neg (by simp [he]), hr]

lemma csFmt_missing_empty (manual k v c : List Char)
    (he : (normalize_value v).isEmpty = false) (hc : c.isEmpty = true)
    (hr : compare_attribute (normalize_value v) manual = (false, some c)) :
    csMatchedFmt manual (k, v) = none ∧ csMismatchFmt manual (k, v) = none ∧
    csMissingFmt manual (k, v) = some (fmtMissing k (normalize_value v)) := by
  refine ⟨?_, ?_, ?_⟩
  · unfold csMatchedFmt
    rw [if_neg (by simp [he]), hr]
    rfl
  · unfold csMismatchFmt
    rw [if_neg (by simp [he]), hr]
    show (if c.isEmpty = true then none
      else some (fmtMismatch k c (normalize_value v))) = _
    rw [if_pos hc]
  · unfold csMissingFmt
    rw [if_neg (by simp [he]), hr]
    show (if c.isEmpty = true then some (fmtMissing k (normalize_value v))
      else none) = _
    rw [if_pos hc]

lemma cs_wfPass_cons (manual k v : List Char) (rest : List (List Char × JVal))
    (m mm ms : List (List Char)) (h : CS.wfPass manual rest = .ok (m, mm, ms)) :
    CS.wfPass manual ((k, JVal.str v) :: rest) =
      .ok ((csMatchedFmt manual (k, v)).toList ++ m,
           (csMismatchFmt manual (k, v)).toList ++ mm,
           (csMissingFmt manual (k, v)).toList ++ ms) := by
  rw [CS.wfPass,
    show normalizeJ (JVal.str v) = Except.ok (normalize_value v) from rfl, ebind_ok]
  by_cases he : (normalize_value v).isEmpty = true
  · rw [if_pos he, h, csMatchedFmt_skip manual k v he, csMismatchFmt_skip manual k v he,
      csMissingFmt_skip manual k v he]
    rfl
  · have he' : (normalize_value v).isEmpty = false := by simpa using he
    rw [if_neg he, h, ebind_ok]
    rcases hr : compare_attribute (normalize_value v) manual with ⟨b, mv⟩
    cases b
    · cases mv with
      | none =>
        obtain ⟨h1, h2, h3⟩ := csFmt_missing_none manual k v he' hr
        rw [h1, h2, h3]
        rfl
      | some c =>
        by_cases hc : c.isEmpty = true
        · obtain ⟨h1, h2, h3⟩ := csFmt_missing_empty manual k v c he' hc hr
          rw [h1, h2, h3]
          show (if c.isEmpty = true
            then Except.ok (m, mm, fmtMissing k (normalize_value v) :: ms)
            else Except.ok (m, fmtMismatch k c (normalize_value v) :: mm, ms)) = _
          rw [if_pos hc]
          rfl
        · have hc' : c.isEmpty = false := by simpa using hc
          obtain ⟨h1, h2, h3⟩ := csFmt_mismatch manual k v c he' hc' hr
          rw [h1, h2, h3]
          show (if c.isEmpty = true
            then Except.ok (m, mm, fmtMissing k (normalize_value v) :: ms)
            else Except.ok (m, fmtMismatch k c (normalize_value v) :: mm, ms)) = _
          rw [if_neg hc]
          rfl
    · obtain ⟨h1, h2, h3⟩ := csFmt_matched manual k v mv he' hr
      rw [h1, h2, h3]
      rfl

lemma cs_wfPass_eq (manual : List Char) (spec : List (List Char × List Char)) :
    CS.wfPass manual (strEntries spec) =
      .ok (spec.filterMap (csMatchedFmt manual), spec.filterMap (csMismatchFmt manual),
        spec.filterMap (csMissingFmt manual)) := by
  induction spec with
  | nil => rfl
  | cons kv rest ih =>
    obtain ⟨k, v⟩ := kv
    rw [show strEntries ((k, v) :: rest) = (k, JVal.str v) :: strEntries rest from rfl]
    rw [cs_wfPass_cons manual k v _ _ _ _ ih]
    rw [filterMap_cons_toList, filterMap_cons_toList, filterMap_cons_toList]

lemma cfFmt_ignored (manual : List Char) (kv : List Char × List Char)
    (hig : cfIgnored kv = true) :
    cfMatchedFmt manual kv = none ∧ cfMismatchFmt manual kv = none ∧
    cfMissingFmt manual kv = none ∧ cfMatchedVal manual kv = none := by
  refine ⟨?_, ?_, ?_, ?_⟩
  · unfold cfMatchedFmt; rw [if_pos hig]
  · unfold cfMismatchFmt; rw [if_pos hig]
  · unfold cfMissingFmt; rw [if_pos hig]
  · unfold cfMatchedVal
    obtain ⟨k, v⟩ := kv
    rw [if_pos hig]

lemma cfFmt_not_ignored (manual : List Char) (kv : List Char × List Char)
    (hig : cfIgnored kv = false) :
    cfMatchedFmt manual kv = csMatchedFmt manual kv ∧
    cfMismatchFmt manual kv = csMismatchFmt manual kv ∧
    cfMissingFmt manual kv = csMissingFmt manual kv := by
  refine ⟨?_, ?_, ?_⟩
  · unfold cfMatchedFmt; rw [if_neg (by simp [hig])]
  · unfold cfMismatchFmt; rw [if_neg (by simp [hig])]
  · unfold cfMissingFmt; rw [if_neg (by simp [hig])]

lemma cfMatchedVal_skip (manual k v : List Char) (hig : cfIgnored (k, v) = false)
    (he : (normalize_value v).isEmpty = true) : cfMatchedVal manual (k, v) = none := by
  unfold cfMatchedVal
  rw [if_neg (by simp [hig]), if_pos he]

lemma cfMatchedVal_not_matched (manual k v : List Char) (b : Bool)
    (mv : Option (List Char)) (hig : cfIgnored (k, v) = false)
    (he : (normalize_value v).isEmpty = false)
    (hr : compare_attribute (normalize_value v) manual = (b, mv)) (hb : b = false) :
    cfMatchedVal manual (k, v) = none := by
  unfold cfMatchedVal
  subst hb
  rw [if_neg (by simp [hig]), if_neg (by simp [he]), hr]
  rfl

lemma cfMatchedVal_matched (manual k v : List Char) (mv : Option (List Char))
    (hig : cfIgnored (k, v) = false) (he : (normalize_value v).isEmpty = false)
    (hr : compare_attribute (normalize_value v) manual = (true, mv)) :
    cfMatchedVal manual (k, v) = some (normalize_value v) := by
  unfold cfMatchedVal
  rw [if_neg (by simp [hig]), if_neg (by simp [he]), hr]
  rfl

lemma cf_wfPass_cons (manual k v : List Char) (rest : List (List Char × JVal))
    (p : CF.Pass1) (h : CF.wfPass manual rest = .ok p) :
    CF.wfPass manual ((k, JVal.str v) :: rest) =
      .ok ⟨(cfMatchedFmt manual (k, v)).toList ++ p.matched,
           (cfMismatchFmt manual (k, v)).toList ++ p.mismatched,
           (cfMissingFmt manual (k, v)).toList ++ p.missing,
           (cfMatchedVal manual (k, v)).toList ++ p.matchedValues⟩ := by
  obtain ⟨m, mm, ms, mvals⟩ := p
  rw [CF.wfPass,
    show normalizeJ (JVal.str v) = Except.ok (normalize_value v) from rfl, ebind_ok]
  by_cases hig : CF.IGNORE_ATTRIBUTES.contains (pyStrip (k.map pyLower)) = true
  · have hig2 : cfIgnored (k, v) = true := hig
    obtain ⟨h1, h2, h3, h4⟩ := cfFmt_ignored manual (k, v) hig2
    rw [if_pos hig, h, h1, h2, h3, h4]
    rfl
  · have hig2 : cfIgnored (k, v) = false := by
      have : CF.IGNORE_ATTRIBUTES.contains (pyStrip (k.map pyLower)) = false := by
        simpa using hig
      exact this
    obtain ⟨e1, e2, e3⟩ := cfFmt_not_ignored manual (k, v) hig2
    rw [if_neg hig, e1, e2, e3]
    by_cases he : (normalize_value v).isEmpty = true
    · rw [if_pos he, h, csMatchedFmt_skip manual k v he, csMismatchFmt_skip manual k v he,
        csMissingFmt_skip manual k v he, cfMatchedVal_skip manual k v hig2 he]
      rfl
    · have he' : (normalize_value v).isEmpty = false := by simpa using he
      rw [if_neg he, h, ebind_ok]
      rcases hr : compare_attribute (normalize_value v) manual with ⟨b, mv⟩
      cases b
      · have h4 := cfMatchedVal_not_matched manual k v false mv hig2 he' hr rfl
        cases mv with
        | none =>
          obtain ⟨h1, h2, h3⟩ := csFmt_missing_none manual k v he' hr
          rw [h1, h2, h3, h4]
          rfl
        | some c =>
          by_cases hc : c.isEmpty = true
          · obtain ⟨h1, h2, h3⟩ := csFmt_missing_empty manual k v c he' hc hr
            rw [h1, h2, h3, h4]
            show (if c.isEmpty = true
              then Except.ok (CF.Pass1.mk m mm (fmtMissing k (normalize_value v) :: ms) mvals)
              else Except.ok
                (CF.Pass1.mk m (fmtMismatch k c (normalize_value v) :: mm) ms mvals)) = _
            rw [if_pos hc]
            rfl
          · have hc' : c.isEmpty = false := by simpa using hc
            obtain ⟨h1, h2, h3⟩ := csFmt_mismatch manual k v c he' hc' hr
            rw [h1, h2, h3, h4]
            show (if c.isEmpty = true
              then Except.ok (CF.Pass1.mk m mm (fmtMissing k (normalize_value v) :: ms) mvals)
              else Except.ok
                (CF.Pass1.mk m (fmtMismatch k c (normalize_value v) :: mm) ms mvals)) = _
            rw [if_neg hc]
            rfl
      · have h4 := cfMatchedVal_matched manual k v mv hig2 he' hr
        obtain ⟨h1, h2, h3⟩ := csFmt_matched manual k v mv he' hr
        rw [h1, h2, h3, h4]
        rfl

lemma cf_wfPass_eq (manual : List Char) (spec : List (List Char × List Char)) :
    CF.wfPass manual (strEntries spec) =
      .ok ⟨spec.filterMap (cfMatchedFmt manual), spec.filterMap (cfMismatchFmt manual),
        spec.filterMap (cfMissingFmt manual), spec.filterMap (cfMatchedVal manual)⟩ := by
  induction spec with
  | nil => rfl
  | cons kv rest ih =>
    obtain ⟨k, v⟩ := kv
    rw [show strEntries ((k, v) :: rest) = (k, JVal.str v) :: strEntries rest from rfl]
    rw [cf_wfPass_cons manual k v _ _ ih]
    rw [filterMap_cons_toList, filterMap_cons_toList, filterMap_cons_toList,
      filterMap_cons_toList]

lemma cs_exactly_one (manual : List Char) (kv : List Char × List Char) :
    (csMatchedFmt manual kv).isSome.toNat + (csMismatchFmt manual kv).isSome.toNat +
      (csMissingFmt manual kv).isSome.toNat =
    if (normalize_value kv.2).isEmpty then 0 else 1 := by
  obtain ⟨k, v⟩ := kv
  by_cases he : (normalize_value v).isEmpty = true
  · rw [csMatchedFmt_skip manual k v he, csMismatchFmt_skip manual k v he,
      csMissingFmt_skip manual k v he, if_pos he]
    rfl
  · have he' : (normalize_value v).isEmpty = false := by simpa using he
    rw [if_neg he]
    rcases hr : compare_attribute (normalize_value v) manual with ⟨b, mv⟩
    cases b
    · cases mv with
      | none =>
        obtain ⟨h1, h2, h3⟩ := csFmt_missing_none manual k v he' hr
        rw [h1, h2, h3]
        rfl
      | some c =>
        by_cases hc : c.isEmpty = true
        · obtain ⟨h1, h2, h3⟩ := csFmt_missing_empty manual k v c he' hc hr
          rw [h1, h2, h3]
          rfl
        · have hc' : c.isEmpty = false := by simpa using hc
          obtain ⟨h1, h2, h3⟩ := csFmt_mismatch manual k v c he' hc' hr
          rw [h1, h2, h3]
          rfl
    · obtain ⟨h1, h2, h3⟩ := csFmt_matched manual k v mv he' hr
      rw [h1, h2, h3]
      rfl

lemma cf_exactly_one (manual : List Char) (kv : List Char × List Char) :
    (cfMatchedFmt manual kv).isSome.toNat + (cfMismatchFmt manual kv).isSome.toNat +
      (cfMissingFmt manual kv).isSome.toNat =
    if cfIgnored kv || (normalize_value kv.2).isEmpty then 0 else 1 := by
  by_cases hig : cfIgnored kv = true
  · obtain ⟨h1, h2, h3, _⟩ := cfFmt_ignored manual kv hig
    rw [h1, h2, h3, if_pos (by simp [hig])]
    rfl
  · have hig2 : cfIgnored kv = false := by simpa using hig
    obtain ⟨e1, e2, e3⟩ := cfFmt_not_ignored manual kv hig2
    rw [e1, e2, e3, hig2, Bool.false_or]
    exact cs_exactly_one manual kv

/-! ### Support for the report-builder and matched-value claims -/

lemma joinList_cons_ex (sep a : List Char) (rest : List (List Char)) :
    ∃ z, joinList sep (a :: rest) = a ++ z := by
  cases rest with
  | nil => exact ⟨[], by simp [joinList]⟩
  | cons b r => exact ⟨sep ++ joinList sep (b :: r), by rw [joinList, List.append_assoc]⟩

lemma cf_val_iff_matched (manual : List Char) (kv : List Char × List Char) :
    (cfMatchedVal manual kv).isSome = (cfMatchedFmt manual kv).isSome := by
  obtain ⟨k, v⟩ := kv
  by_cases hig : cfIgnored (k, v) = true
  · obtain ⟨h1, _, _, h4⟩ := cfFmt_ignored manual (k, v) hig
    rw [h1, h4]
  · have hig2 : cfIgnored (k, v) = false := by simpa using hig
    obtain ⟨e1, _, _⟩ := cfFmt_not_ignored manual (k, v) hig2
    rw [e1]
    by_cases he : (normalize_value v).isEmpty = true
    · rw [cfMatchedVal_skip manual k v hig2 he, csMatchedFmt_skip manual k v he]
    · have he' : (normalize_value v).isEmpty = false := by simpa using he
      rcases hr : compare_attribute (normalize_value v) manual with ⟨b, mv⟩
      cases b
      · rw [cfMatchedVal_not_matched manual k v false mv hig2 he' hr rfl]
        cases mv with
        | none => rw [(csFmt_missing_none manual k v he' hr).1]
        | some c =>
          by_cases hc : c.isEmpty = true
          · rw [(csFmt_missing_empty manual k v c he' hc hr).1]
          · rw [(csFmt_mismatch manual k v c he' (by simpa using hc) hr).1]
      · rw [cfMatchedVal_matched manual k v mv hig2 he' hr,
          (csFmt_matched manual k v mv he' hr).1]
        rfl

/-! ### The claims -/

/-- **C1** (corrected).  For the plain script, every specification entry
with a string value and a non-empty normalized value contributes exactly
one formatted entry to exactly one of the matched / mismatched / missing
collections of the workflow pass, and entries with empty normalized
values contribute to none: the loop equals independent per-entry
`filterMap`s, and the per-entry contribution count is 1 for non-empty
normalized values and 0 otherwise.  For the fuzzy script the same holds
with the additional exception (which corrects the claim) that entries
whose case-folded, stripped key is in `IGNORE_ATTRIBUTES` also
contribute to none. -/
theorem claim_C1_report_partition :
    (∀ (manual : List Char) (spec : List (List Char × List Char)),
      CS.wfPass manual (strEntries spec) =
        .ok (spec.filterMap (csMatchedFmt manual), spec.filterMap (csMismatchFmt manual),
          spec.filterMap (csMissingFmt manual))) ∧
    (∀ (manual : List Char) (kv : List Char × List Char),
      (csMatchedFmt manual kv).isSome.toNat + (csMismatchFmt manual kv).isSome.toNat +
        (csMissingFmt manual kv).isSome.toNat =
      if (normalize_value kv.2).isEmpty then 0 else 1) ∧
    (∀ (manual : List Char) (spec : List (List Char × List Char)),
      CF.wfPass manual (strEntries spec) =
        .ok ⟨spec.filterMap (cfMatchedFmt manual), spec.filterMap (cfMismatchFmt manual),
          spec.filterMap (cfMissingFmt manual), spec.filterMap (cfMatchedVal manual)⟩) ∧
    (∀ (manual : List Char) (kv : List Char × List Char),
      (cfMatchedFmt manual kv).isSome.toNat + (cfMismatchFmt manual kv).isSome.toNat +
        (cfMissingFmt manual kv).isSome.toNat =
      if cfIgnored kv || (normalize_value kv.2).isEmpty then 0 else 1) :=
  ⟨cs_wfPass_eq, cs_exactly_one, cf_wfPass_eq, cf_exactly_one⟩

/-- **C1** counterexample to the claim as stated: in the fuzzy script the
entry `"category" : "lighting"` has a non-empty normalized value, yet the
whole report is the sentinel — the entry appears in no section. -/
theorem claim_C1_counterexample :
    CF.compare (lstr "")
      (.obj [(lstr "verified", .obj [(lstr "specification",
        .obj [(lstr "category", .str (lstr "lighting"))])])]) = .ok noSpecSentinel ∧
    (normalize_value (lstr "lighting")).isEmpty = false :=
  ⟨rfl, by decide⟩

/-- **C2** (corrected).  Specification extraction either returns a JSON
object (in particular the empty one on every missing / non-object /
falsy step of the path), or — when `verified.specification` holds a
truthy non-object — returns that value unchanged, in which case the
per-row comparison raises (`spec.items()` on a non-dict), so an
exception does propagate out of per-row processing. -/
theorem claim_C2_extraction_total (p : JVal) :
    (∃ kvs, extract_specification p = JVal.obj kvs) ∨
    (∀ manual, CS.compare manual p = .error ()) := by
  rcases hx : extract_specification p with _ | b | n | s | a | kvs
  · refine Or.inr (fun manual => ?_)
    show Except.bind (specItems (extract_specification p)) _ = Except.error ()
    rw [hx]
    rfl
  · refine Or.inr (fun manual => ?_)
    show Except.bind (specItems (extract_specification p)) _ = Except.error ()
    rw [hx]
    rfl
  · refine Or.inr (fun manual => ?_)
    show Except.bind (specItems (extract_specification p)) _ = Except.error ()
    rw [hx]
    rfl
  · refine Or.inr (fun manual => ?_)
    show Except.bind (specItems (extract_specification p)) _ = Except.error ()
    rw [hx]
    rfl
  · refine Or.inr (fun manual => ?_)
    show Except.bind (specItems (extract_specification p)) _ = Except.error ()
    rw [hx]
    rfl
  · exact Or.inl ⟨kvs, rfl⟩

/-- **C2** counterexample to the claim as stated: the payload
`{"verified": {"specification": "abc"}}` makes extraction return the
string `"abc"` (not a mapping), and the per-row comparison raises. -/
theorem claim_C2_counterexample :
    extract_specification
      (.obj [(lstr "verified", .obj [(lstr "specification", .str (lstr "abc"))])]) =
      JVal.str (lstr "abc") ∧
    CS.compare (lstr "x")
      (.obj [(lstr "verified", .obj [(lstr "specification", .str (lstr "abc"))])]) =
      .error () :=
  ⟨rfl, rfl⟩

/-- **C3** (confirmed).  The Normalizer is idempotent: applying
`normalize_value` twice yields the same result as applying it once. -/
theorem claim_C3_normalizer_idempotent (s : List Char) :
    normalize_value (normalize_value s) = normalize_value s :=
  normalize_id _ (norm_okChars s) (norm_noDbl s) (norm_noLead s) (norm_noTrail s)
    (norm_no_sw s) (norm_no_slm s) (norm_no_sk s)

/-- **C4** (corrected).  When the substring rule does not fire and the
nested numeric-unit loops find a differing pair, the matcher returns
`NotMatched` with the space-stripped manual token of the *first*
differing pair in extraction order (workflow-major, manual-minor) — not
necessarily `"9w"` for every manual text containing `"9w"`: the first
differing manual token wins.  The second conjunct identifies the nested
loops with the first-differing-pair search. -/
theorem claim_C4_numeric_conflict (w m c : List Char)
    (h1 : (!(normalize_value w).isEmpty &&
      containsSub (normalize_value w) (normalize_value m)) = false)
    (h2 : firstDiff (findNumUnits (normalize_value w))
      (findNumUnits (normalize_value m)) = some c) :
    compare_attribute w m = (false, some c) ∧
    ∀ ws ms, firstDiff ws ms =
      ws.findSome? (fun wt => ms.findSome? (fun mt =>
        if stripSpaces mt ≠ stripSpaces wt then some (stripSpaces mt) else none)) := by
  constructor
  · unfold compare_attribute
    rw [if_neg (by simp [h1]), h2]
  · intro ws ms
    have haux : ∀ (wc : List Char) (ms0 : List (List Char)), firstDiffAux wc ms0 =
        ms0.findSome? (fun mt =>
          if stripSpaces mt ≠ wc then some (stripSpaces mt) else none) := by
      intro wc ms0
      induction ms0 with
      | nil => rfl
      | cons mt ms1 ih =>
        rw [firstDiffAux, List.findSome?_cons]
        by_cases hne : stripSpaces mt ≠ wc
        · simp [hne]
        · simp [hne, ih]
    induction ws with
    | nil => rfl
    | cons wt ws1 ih =>
      rw [firstDiff, List.findSome?_cons, haux]
      cases List.findSome? (fun mt =>
        if stripSpaces mt ≠ stripSpaces wt then some (stripSpaces mt) else none) ms with
      | none => exact ih
      | some mc => rfl

/-- **C4** counterexample to the claim as stated: the manual text
`"a 19w bulb"` contains `"9w"` and not `"10w"` after normalization, yet
the conflict value is `"19w"` (the first extracted token), not `"9w"`. -/
theorem claim_C4_counterexample :
    compare_attribute (lstr "10w") (lstr "a 19w bulb") = (false, some (lstr "19w")) ∧
    containsSub (lstr "9w") (normalize_value (lstr "a 19w bulb")) = true ∧
    containsSub (lstr "10w") (normalize_value (lstr "a 19w bulb")) = false ∧
    some (lstr "19w") ≠ some (lstr "9w") :=
  ⟨by decide, by decide, by decide, by decide⟩

/-- **C4** witness. -/
theorem claim_C4_witness :
    compare_attribute (lstr "10w") (lstr "a 19w bulb") = (false, some (lstr "19w")) :=
  (claim_C4_numeric_conflict (lstr "10w") (lstr "a 19w bulb") (lstr "19w")
    (by decide) (by decide)).1

/-- **C5** (corrected).  Containment soundness holds for the *normalized*
manual text: if the non-empty normalized workflow value is a literal
substring of the normalized manual text, the matcher returns `Matched`
with no mismatch value.  (For the raw manual text the claim fails:
normalization can destroy the occurrence, see the counterexample.) -/
theorem claim_C5_containment (w m : List Char)
    (h1 : (normalize_value w).isEmpty = false)
    (h2 : containsSub (normalize_value w) (normalize_value m) = true) :
    compare_attribute w m = (true, none) := by
  unfold compare_attribute
  rw [if_pos (by simp [h1, h2])]

/-- **C5** counterexample to the claim as stated: `"watt"` is a non-empty
normalized workflow value and a literal substring of the manual text
`"a watt"`, yet the matcher returns `NotMatched` — normalizing the
manual text turns it into `"aw"`, destroying the occurrence. -/
theorem claim_C5_counterexample :
    normalize_value (lstr "watt") = lstr "watt" ∧
    (lstr "watt").isEmpty = false ∧
    containsSub (lstr "watt") (lstr "a watt") = true ∧
    compare_attribute (lstr "watt") (lstr "a watt") = (false, none) :=
  ⟨by decide, by decide, by decide, by decide⟩

/-- **C5** witness. -/
theorem claim_C5_witness :
    compare_attribute (lstr "10w") (lstr "a 10w bulb") = (true, none) :=
  claim_C5_containment (lstr "10w") (lstr "a 10w bulb") (by decide) (by decide)

/-- **C6** (confirmed).  When neither the substring rule nor the
numeric-unit conflict rule fires, the matcher returns `Matched` exactly
when the partial-ratio score of the two normalized strings is at least
85, and `NotMatched` with no conflict value otherwise (a pair scoring
exactly 85 is `Matched`, one scoring 84 is not). -/
theorem claim_C6_fuzzy_threshold (w m : List Char)
    (h1 : (!(normalize_value w).isEmpty &&
      containsSub (normalize_value w) (normalize_value m)) = false)
    (h2 : firstDiff (findNumUnits (normalize_value w))
      (findNumUnits (normalize_value m)) = none) :
    compare_attribute w m =
      (if 85 ≤ fuzzScore (normalize_value w) (normalize_value m)
       then (true, none) else (false, none)) := by
  unfold compare_attribute
  rw [if_neg (by simp [h1]), h2]

/-- **C6** witness. -/
theorem claim_C6_witness :
    compare_attribute (lstr "abc") (lstr "xyz") =
      (if 85 ≤ fuzzScore (normalize_value (lstr "abc")) (normalize_value (lstr "xyz"))
       then (true, none) else (false, none)) :=
  claim_C6_fuzzy_threshold (lstr "abc") (lstr "xyz") (by decide) (by decide)

/-- **C7** (corrected).  The unit canonicalization removes the space
before `"watt"` (coalescing to `"w"`) and before *every* occurrence of
`"w"` — not only before a trailing `"w"` token: no `" w"`, `" lm"` or
`" k"` survives in any normalizer output, and in particular the space
before the arbitrary word `"white"` is removed too. -/
theorem claim_C7_unit_canonicalization (v : List Char) :
    containsSub (lstr " w") (normalize_value v) = false ∧
    containsSub (lstr " lm") (normalize_value v) = false ∧
    containsSub (lstr " k") (normalize_value v) = false :=
  ⟨norm_no_sw v, norm_no_slm v, norm_no_sk v⟩

/-- **C7** counterexample to the claim as stated: `"white"` is an
arbitrary word beginning with `w`, not a trailing `w` token, yet the
normalizer removes the space before it. -/
theorem claim_C7_counterexample :
    normalize_value (lstr "a white") = lstr "awhite" ∧
    lstr "awhite" ≠ lstr "a white" :=
  ⟨by decide, by decide⟩

/-- **C8** (confirmed).  The report builder emits one labeled section per
non-empty collection, always in the order matched, mismatched, missing
(`buildReportAlt` is that order-fixed presentation), and it returns the
sentinel exactly when all three collections are empty. -/
theorem claim_C8_report_builder (m mm ms : List (List Char)) :
    (buildReport m mm ms = noSpecSentinel ↔ m = [] ∧ mm = [] ∧ ms = []) ∧
    buildReport m mm ms = buildReportAlt m mm ms := by
  constructor
  · constructor
    · intro heq
      rcases m with _ | ⟨a, m⟩
      · rcases mm with _ | ⟨b, mm⟩
        · rcases ms with _ | ⟨c, ms⟩
          · exact ⟨rfl, rfl, rfl⟩
          · exfalso
            obtain ⟨z, hz⟩ := joinList_cons_ex (lstr "\n\n")
              (lstr "❌ Missing:\n- " ++ joinList (lstr "\n- ") (c :: ms)) []
            have hb : buildReport [] [] (c :: ms) = joinList (lstr "\n\n")
                [lstr "❌ Missing:\n- " ++ joinList (lstr "\n- ") (c :: ms)] := rfl
            rw [hb, hz] at heq
            have h0 : some '❌' = some '✅' := congrArg (fun l => l.head?) heq
            exact absurd h0 (by decide)
        · exfalso
          obtain ⟨z, hz⟩ := joinList_cons_ex (lstr "\n\n")
            (lstr "⚠️ Mismatched:\n- " ++ joinList (lstr "\n- ") (b :: mm))
            (if ms.isEmpty then [] else [lstr "❌ Missing:\n- " ++ joinList (lstr "\n- ") ms])
          have hb : buildReport [] (b :: mm) ms = joinList (lstr "\n\n")
              ((lstr "⚠️ Mismatched:\n- " ++ joinList (lstr "\n- ") (b :: mm)) ::
                (if ms.isEmpty then []
                 else [lstr "❌ Missing:\n- " ++ joinList (lstr "\n- ") ms])) := rfl
          rw [hb, hz] at heq
          have h0 : some '⚠' = some '✅' := congrArg (fun l => l.head?) heq
          exact absurd h0 (by decide)
      · exfalso
        obtain ⟨z, hz⟩ := joinList_cons_ex (lstr "\n\n")
          (lstr "✅ Matched:\n- " ++ joinList (lstr "\n- ") (a :: m))
          ((if mm.isEmpty then []
            else [lstr "⚠️ Mismatched:\n- " ++ joinList (lstr "\n- ") mm]) ++
           (if ms.isEmpty then []
            else [lstr "❌ Missing:\n- " ++ joinList (lstr "\n- ") ms]))
        have hb : buildReport (a :: m) mm ms = joinList (lstr "\n\n")
            ((lstr "✅ Matched:\n- " ++ joinList (lstr "\n- ") (a :: m)) ::
              ((if mm.isEmpty then []
                else [lstr "⚠️ Mismatched:\n- " ++ joinList (lstr "\n- ") mm]) ++
               (if ms.isEmpty then []
                else [lstr "❌ Missing:\n- " ++ joinList (lstr "\n- ") ms]))) := rfl
        rw [hb, hz] at heq
        have h0 : some 'M' = some 'N' := congrArg (fun l => (l.drop 2).head?) heq
        exact absurd h0 (by decide)
    · rintro ⟨hm, hmm, hms⟩
      subst hm; subst hmm; subst hms
      rfl
  · rcases m with _ | ⟨a, m⟩ <;> rcases mm with _ | ⟨b, mm⟩ <;>
      rcases ms with _ | ⟨c, ms⟩ <;> rfl

/-- **C9** (confirmed).  A row whose status field, stripped and
case-folded, is not exactly `"success"`, or whose payload fails to
parse, is output unchanged except that the comparison field is set to
exactly `"Not Applicable"` — in both scripts. -/
theorem claim_C9_not_applicable (parse : List Char → Option JVal) (row : Row)
    (h : (pyStrip row.scrapeStatus).map pyLower ≠ lstr "success" ∨
      parse row.payload = none) :
    CS.processRow parse row = .ok { row with comparison := NotApplicable } ∧
    CF.processRow parse row = .ok { row with comparison := NotApplicable } := by
  rcases h with h | h
  · constructor
    · unfold CS.processRow
      rw [if_pos h]
    · unfold CF.processRow
      rw [if_pos h]
  · constructor
    · unfold CS.processRow
      by_cases hs : (pyStrip row.scrapeStatus).map pyLower ≠ lstr "success"
      · rw [if_pos hs]
      · rw [if_neg hs, h]
    · unfold CF.processRow
      by_cases hs : (pyStrip row.scrapeStatus).map pyLower ≠ lstr "success"
      · rw [if_pos hs]
      · rw [if_neg hs, h]

/-- **C9** witness. -/
theorem claim_C9_witness :
    CS.processRow (fun _ => none)
      (Row.mk (lstr "Failed") (lstr "not json") (lstr "m") (lstr "") [(lstr "URL", lstr "u")]) =
      .ok (Row.mk (lstr "Failed") (lstr "not json") (lstr "m") NotApplicable
        [(lstr "URL", lstr "u")]) ∧
    CF.processRow (fun _ => none)
      (Row.mk (lstr "Failed") (lstr "not json") (lstr "m") (lstr "") [(lstr "URL", lstr "u")]) =
      .ok (Row.mk (lstr "Failed") (lstr "not json") (lstr "m") NotApplicable
        [(lstr "URL", lstr "u")]) :=
  claim_C9_not_applicable (fun _ => none)
    (Row.mk (lstr "Failed") (lstr "not json") (lstr "m") (lstr "") [(lstr "URL", lstr "u")])
    (Or.inl (by decide))

/-- **C10** (confirmed).  The suppression set `matched_values` of the
value-set variant contains exactly the normalized values of entries
classified as `Matched` (never those of mismatched or missing entries):
it equals the `filterMap` of `cfMatchedVal`, which is populated exactly
when the matched section is.  Consequently on the workflow mapping
`{"Wattage": "10W"}` with manual text `"a bright 9w bulb"` the token
`9w` appears both as the conflict value of the mismatched entry and
again in the missing section as an unmatched manual value. -/
theorem claim_C10_suppression_set :
    (∀ (manual : List Char) (spec : List (List Char × List Char)) (p : CF.Pass1),
      CF.wfPass manual (strEntries spec) = .ok p →
      p.matchedValues = spec.filterMap (cfMatchedVal manual)) ∧
    (∀ (manual : List Char) (kv : List Char × List Char),
      (cfMatchedVal manual kv).isSome = (cfMatchedFmt manual kv).isSome) ∧
    CF.compare (lstr "a bright 9w bulb") pldWattage =
      .ok (lstr "⚠️ Mismatched:\n- Wattage\n  Manual: 9w\n  Workflow: 10w\n\n❌ Missing:\n- Unmatched Manual Value\n  Manual: 9w\n  Workflow: Not found") := by
  refine ⟨?_, cf_val_iff_matched, rfl⟩
  intro manual spec p hp
  rw [cf_wfPass_eq] at hp
  cases hp
  rfl

/-- **C10** witness. -/
theorem claim_C10_witness :
    CF.wfPass (normalize (lstr "a bright 9w bulb"))
      (strEntries [(lstr "Wattage", lstr "10W")]) =
      .ok ⟨[], [lstr "Wattage\n  Manual: 9w\n  Workflow: 10w"], [], []⟩ ∧
    [(lstr "Wattage", lstr "10W")].filterMap
      (cfMatchedVal (normalize (lstr "a bright 9w bulb"))) = [] := by
  constructor
  · rfl
  · have h := (claim_C10_suppression_set).1 (normalize (lstr "a bright 9w bulb"))
      [(lstr "Wattage", lstr "10W")]
      ⟨[], [lstr "Wattage\n  Manual: 9w\n  Workflow: 10w"], [], []⟩ (by rfl)
    exact h.symm

/-! ### Evaluation checks of the embedding on concrete inputs -/

example : normalize_value (lstr "  A  Bright  10 Watt  Bulb ") = lstr "a bright 10w bulb" := by decide

example : normalize_value (lstr "800 lm, 2700 K") = lstr "800lm, 2700k" := by decide

example : normalize_value (lstr "a white") = lstr "awhite" := by decide

example : normalize_value (lstr "3–5 w") = lstr "3-5w" := by decide

example : containsSub (lstr "10w") (lstr "a 10w bulb") = true := by decide

example : containsSub (lstr "10w") (lstr "a 9w bulb") = false := by decide

example : findNumUnits (lstr "9.5 w and 800lm, 2700k") = [lstr "9.5 w", lstr "800lm", lstr "2700k"] := by decide

example : findNumUnits (lstr "12 34w") = [lstr "34w"] := by decide

example : lcsLen (lstr "abcbdab") (lstr "bdcaba") = 4 := by decide

example : fuzzScore (lstr "abc") (lstr "xabcy") = 100 := by decide

example : fuzzScore (lstr "abc") (lstr "xyz") = 0 := by decide

example : compare_attribute (lstr "10w") (lstr "a bright 10w bulb") = (true, none) := by decide

example : compare_attribute (lstr "10w") (lstr "a bright 9w bulb") = (false, some (lstr "9w")) := by decide

example : extract_manual_values (lstr "a bright 9w bulb") = [lstr "9w"] := by decide

example : extract_manual_values (lstr "") = [] := by decide

example :
    extract_manual_values
      (lstr "Dimmable B22 bulb, 800 lm, 15,000 hours, warm white, 2 year guarantee") =
    [lstr "800lm", lstr "15,000 hours", lstr "2 year", lstr "b22",
     lstr "dimmable"] := by decide

example : extract_manual_attributes (lstr "Brand: Acme 9w bulb, 2700K") =
    [(lstr "brand", lstr "brand: acme 9w bulb"),
     (lstr "wattage", lstr "9w"),
     (lstr "colour temperature", lstr "2700k")] := by decide

example : pyTitle (lstr "colour temperature") = lstr "Colour Temperature" := by decide

example : sortLex [lstr "b22", lstr "9w", lstr "800lm"] =
    [lstr "800lm", lstr "9w", lstr "b22"] := by decide

example : CS.compare (lstr "A bright 10w bulb") pldWattage =
    .ok (lstr "✅ Matched:\n- Wattage: 10W") := by rfl

example : CS.compare (lstr "A bright 9w bulb") pldWattage =
    .ok (lstr "⚠️ Mismatched:\n- Wattage\n  Manual: 9w\n  Workflow: 10w") := by rfl

example : CF.compare (lstr "a bright 9w bulb") pldWattage =
    .ok (lstr "⚠️ Mismatched:\n- Wattage\n  Manual: 9w\n  Workflow: 10w\n\n❌ Missing:\n- Unmatched Manual Value\n  Manual: 9w\n  Workflow: Not found") := by rfl

example : CF.compare (lstr "")
    (.obj [(lstr "verified", .obj [(lstr "specification",
      .obj [(lstr "category", .str (lstr "lighting"))])])]) =
    .ok noSpecSentinel := by rfl

example : CS.compare (lstr "x")
    (.obj [(lstr "verified", .obj [(lstr "specification", .str (lstr "abc"))])]) =
    .error () := by rfl

end Scraper
